import Mathlib

/-!
Shallow embedding of the core of the `fungui` ("stylish") UI layout and
styling engine (files `src/lib.rs` and `src/rule.rs`), for checking the
natural-language specification against the code.

Modelling conventions:
* `i32` is modelled as `Int`; arithmetic that can overflow in the source
  (`+`, `-`, `*`, unary `-` on `i32`) is wrapped through `wrap32`
  (two's-complement wrap-around, the release-mode behaviour of Rust).
* `f64` is modelled as `ℚ` (exact arithmetic); division by zero yields `0`
  instead of an IEEE infinity or NaN.  No claim under test depends on the
  numeric value of a float produced by division.
* `FnvHashMap` is modelled as an association list with first-key-wins lookup
  and replace-in-place insert; the source code never depends on hash-map
  iteration order in a way the claims can observe (per-key processing in the
  cascade is independent across keys).
* `Rc<RefCell<...>>`/`Weak` interior mutability is modelled two ways:
  a functional tree (`NodeT`) for the layout pipeline, where the parent's
  render object is passed down the recursion exactly as the source reads it
  through the upgraded weak link, and a small heap model (`Heap`) for the
  tree-mutation operations `add_child`/`remove_child`, where weak parent
  links are explicit.  Panics are modelled as `Option.none` results.
* Layout engines are pluggable in the source; the only registered engine is
  the built-in `AbsoluteLayout`, which is what this embedding models (the
  `layouts` factory map holds just `"absolute"`, so engine selection can
  never produce a different engine).  The engine instance and the
  renderer-private `render_info`/`text_splits` fields carry no data relevant
  to any claim and are omitted from `RenderObject`.
-/

namespace Fungui

/-- Source position attached to parsed values and expressions
(`combine::primitives::SourcePosition`: line and column, both `i32`). -/
structure Position where
  line : Int
  column : Int
deriving DecidableEq, Repr

/-- An identifier with its source position (`stylish_syntax::Ident`). -/
structure Ident where
  name : String
  position : Position
deriving DecidableEq, Repr

/-- The position and size of an element (`Rect` in `src/lib.rs`). -/
structure Rect where
  x : Int
  y : Int
  width : Int
  height : Int
deriving DecidableEq, Repr

/-- Two's-complement wrap-around of an integer into the `i32` range,
modelling Rust release-mode integer arithmetic. -/
def wrap32 (n : Int) : Int :=
  (n + 2 ^ 31) % 2 ^ 32 - 2 ^ 31

/-- Truncation of a rational toward zero, modelling Rust's `f64 as i32`
cast for in-range values. -/
def truncQ (q : ℚ) : Int :=
  if 0 ≤ q then ⌊q⌋ else ⌈q⌉

/-- A value that can be used as a style attribute (`Value` in
`src/lib.rs`).  `anyv` stands for `Value::Any(Box<CustomValue>)`; the
payload is an opaque tag, and like in the source two `anyv` values never
compare equal. -/
inductive Value where
  | boolean : Bool → Value
  | integer : Int → Value
  | float : ℚ → Value
  | string : String → Value
  | anyv : Nat → Value
deriving DecidableEq, Repr

/-- A parsed literal or variable in a style document
(`stylish_syntax::style::Value`). -/
inductive StyleValue where
  | boolean : Bool → StyleValue
  | integer : Int → StyleValue
  | float : ℚ → StyleValue
  | string : String → StyleValue
  | variable : Ident → StyleValue
deriving DecidableEq, Repr

/-- A parsed style expression (`stylish_syntax::style::Expr` together with
the position wrapper `ExprType`; each node carries the position of its
`ExprType`). -/
inductive Expr where
  | value : StyleValue → Position → Expr
  | neg : Expr → Position → Expr
  | add : Expr → Expr → Position → Expr
  | sub : Expr → Expr → Position → Expr
  | mul : Expr → Expr → Position → Expr
  | div : Expr → Expr → Position → Expr
  | call : Ident → List Expr → Position → Expr
deriving Repr

/-- Error kinds raised by expression evaluation (the variants of
`error::ErrorKind` used in `src/rule.rs`). -/
inductive ErrorKind where
  | unknownVariable : String → Position → ErrorKind
  | unknownFunction : String → Position → ErrorKind
  | cantOp : String → Position → ErrorKind
  | functionFailed : Position → ErrorKind
deriving DecidableEq, Repr

/-- Association-list lookup, modelling `FnvHashMap::get`. -/
def lookupA {α : Type _} : List (String × α) → String → Option α
  | [], _ => none
  | (k, v) :: rest, key => if k = key then some v else lookupA rest key

/-- Association-list insert with in-place replacement, modelling
`FnvHashMap::insert`. -/
def insertA {α : Type _} : List (String × α) → String → α → List (String × α)
  | [], key, v => [(key, v)]
  | (k, v') :: rest, key, v =>
    if k = key then (key, v) :: rest else (k, v') :: insertA rest key v

/-- Property bags (`FnvHashMap<String, Value>`). -/
abbrev Props := List (String × Value)

/-- Conversion `PropertyValue for i32`: integers pass through, floats are
truncated toward zero, everything else fails. -/
def convI32 : Value → Option Int
  | .integer v => some v
  | .float v => some (truncQ v)
  | _ => none

/-- Conversion `PropertyValue for f64`: integers widen, floats pass
through, everything else fails. -/
def convF64 : Value → Option ℚ
  | .integer v => some (v : ℚ)
  | .float v => some v
  | _ => none

/-- Conversion `PropertyValue for bool`. -/
def convBool : Value → Option Bool
  | .boolean v => some v
  | _ => none

/-- Conversion `PropertyValue for String`. -/
def convString : Value → Option String
  | .string v => some v
  | _ => none

/-- A style rule matcher step (`stylish_syntax::style::Matcher`, reduced to
the element name actually used by the engine). -/
inductive SynMatcher where
  | element : String → SynMatcher
  | text : SynMatcher
deriving DecidableEq, Repr

/-- A parsed style rule (`stylish_syntax::style::Rule`): the matcher chain,
each step with its attribute predicates, and the style block mapping
property names to expressions. -/
structure SynRule where
  matchers : List (SynMatcher × List (String × StyleValue))
  styles : List (String × Expr)
deriving Repr

/-- The style state owned by a `Manager` (`Styles` in `src/lib.rs`):
loaded documents in load order and the user-registered style functions.
The layout-engine factory map always holds exactly the built-in
`"absolute"` engine and is left implicit. -/
structure StylesT where
  styles : List (String × List SynRule)
  funcs : List (String × (List Value → Option Value))

/-- Evaluation of a literal or variable (`Rule::eval_value`): the four
reserved `parent_*` names resolve to the parent rectangle, other variables
resolve through the rule's bound-variable environment. -/
def evalValue (vars : Props) (parentRect : Rect) : StyleValue → Except ErrorKind Value
  | .boolean b => .ok (.boolean b)
  | .float f => .ok (.float f)
  | .integer i => .ok (.integer i)
  | .string s => .ok (.string s)
  | .variable id =>
    if id.name = "parent_x" then .ok (.integer parentRect.x)
    else if id.name = "parent_y" then .ok (.integer parentRect.y)
    else if id.name = "parent_width" then .ok (.integer parentRect.width)
    else if id.name = "parent_height" then .ok (.integer parentRect.height)
    else
      match lookupA vars id.name with
      | some v => .ok v
      | none => .error (.unknownVariable id.name id.position)

mutual

/-- Expression evaluation (`Rule::eval` in `src/rule.rs`).  Operands are
evaluated left to right before the operator's variant dispatch; the
`CantOp` errors carry the operator expression's position. -/
def evalExpr (st : StylesT) (vars : Props) (parentRect : Rect) : Expr → Except ErrorKind Value
  | .value v _ => evalValue vars parentRect v
  | .add l r pos =>
    match evalExpr st vars parentRect l with
    | .error e => .error e
    | .ok lv =>
      match evalExpr st vars parentRect r with
      | .error e => .error e
      | .ok rv =>
        match lv, rv with
        | .float a, .float b => .ok (.float (a + b))
        | .integer a, .integer b => .ok (.integer (wrap32 (a + b)))
        | .float a, .integer b => .ok (.float (a + (b : ℚ)))
        | .integer a, .float b => .ok (.float ((a : ℚ) + b))
        | .string a, .string b => .ok (.string (a ++ b))
        | _, _ => .error (.cantOp "add" pos)
  | .sub l r pos =>
    match evalExpr st vars parentRect l with
    | .error e => .error e
    | .ok lv =>
      match evalExpr st vars parentRect r with
      | .error e => .error e
      | .ok rv =>
        match lv, rv with
        | .float a, .float b => .ok (.float (a - b))
        | .integer a, .integer b => .ok (.integer (wrap32 (a - b)))
        | .float a, .integer b => .ok (.float (a - (b : ℚ)))
        | .integer a, .float b => .ok (.float ((a : ℚ) - b))
        | _, _ => .error (.cantOp "subtract" pos)
  | .mul l r pos =>
    match evalExpr st vars parentRect l with
    | .error e => .error e
    | .ok lv =>
      match evalExpr st vars parentRect r with
      | .error e => .error e
      | .ok rv =>
        match lv, rv with
        | .float a, .float b => .ok (.float (a * b))
        | .integer a, .integer b => .ok (.integer (wrap32 (a * b)))
        | .float a, .integer b => .ok (.float (a * (b : ℚ)))
        | .integer a, .float b => .ok (.float ((a : ℚ) * b))
        | _, _ => .error (.cantOp "multiply" pos)
  | .div l r pos =>
    match evalExpr st vars parentRect l with
    | .error e => .error e
    | .ok lv =>
      match evalExpr st vars parentRect r with
      | .error e => .error e
      | .ok rv =>
        match lv, rv with
        | .float a, .float b => .ok (.float (a / b))
        | .integer a, .integer b => .ok (.float ((a : ℚ) / (b : ℚ)))
        | .float a, .integer b => .ok (.float (a / (b : ℚ)))
        | .integer a, .float b => .ok (.float ((a : ℚ) / b))
        | _, _ => .error (.cantOp "divide" pos)
  | .neg l pos =>
    match evalExpr st vars parentRect l with
    | .error e => .error e
    | .ok lv =>
      match lv with
      | .boolean b => .ok (.boolean (!b))
      | .float a => .ok (.float (-a))
      | .integer a => .ok (.integer (wrap32 (-a)))
      | _ => .error (.cantOp "negate" pos)
  | .call id args pos =>
    match lookupA st.funcs id.name with
    | some f =>
      match evalArgs st vars parentRect args with
      | .error e => .error e
      | .ok vs =>
        match f vs with
        | some v => .ok v
        | none => .error (.functionFailed pos)
    | none => .error (.unknownFunction id.name id.position)

/-- Left-to-right evaluation of a call's argument list, stopping at the
first error (`args.iter().map(...).collect::<SResult<Vec<_>>>()`). -/
def evalArgs (st : StylesT) (vars : Props) (parentRect : Rect) : List Expr → Except ErrorKind (List Value)
  | [] => .ok []
  | a :: rest =>
    match evalExpr st vars parentRect a with
    | .error e => .error e
    | .ok v =>
      match evalArgs st vars parentRect rest with
      | .error e => .error e
      | .ok vs => .ok (v :: vs)

end

/-- The data of a node that the matcher reads: whether it is a text node,
its element name, and its property bag. -/
structure MNode where
  isText : Bool
  name : String
  props : Props
deriving Repr

/-- The terminal-matcher key of a node
(`node.name().map(Matcher::Element).unwrap_or(Matcher::Text)`). -/
def nodeKey (n : MNode) : SynMatcher :=
  if n.isText then .text else .element n.name

/-- The terminal (rightmost) matcher of a rule's chain, used as the index
key by `Manager::rebuild_styles`; rules with an empty chain are skipped. -/
def terminalOf (r : SynRule) : Option SynMatcher :=
  (r.matchers.getLast?).map Prod.fst

/-- The bucket of rules whose chain ends in the given terminal matcher, in
insertion order: documents in load order, rules within a document in
declaration order (`Manager::rebuild_styles` populating `rules_by_base`). -/
def rulesByBase (docs : List (String × List SynRule)) (key : SynMatcher) : List SynRule :=
  docs.flatMap (fun d => d.2.filter (fun r => terminalOf r = some key))

/-- One step of chain matching (`RuleIter::next`, inner loop body): the
matcher's kind must agree with the node, and every attribute predicate must
either bind a variable or equal the node's property value within the same
variant.  A missing property or a cross-variant comparison fails. -/
def matchMatcher (m : SynMatcher × List (String × StyleValue)) (n : MNode) (vars : Props) : Option Props :=
  let typeOk : Bool :=
    match m.1, n.isText with
    | .text, true => true
    | .element e, false => e = n.name
    | _, _ => false
  if typeOk then
    m.2.foldl
      (fun acc (pv : String × StyleValue) =>
        acc.bind fun vs =>
          match lookupA n.props pv.1 with
          | none => none
          | some pval =>
            match pv.2 with
            | .variable id => some (insertA vs id.name pval)
            | .boolean b =>
              match pval with
              | .boolean nb => if nb = b then some vs else none
              | _ => none
            | .integer i =>
              match pval with
              | .integer ni => if ni = i then some vs else none
              | _ => none
            | .float f =>
              match pval with
              | .float nf => if nf = f then some vs else none
              | _ => none
            | .string s =>
              match pval with
              | .string ns => if ns = s then some vs else none
              | _ => none)
      (some vars)
  else none

/-- Chain matching: walk the matchers right to left while walking the node
chain upward; running out of ancestors with matchers left fails
(`RuleIter::next`, the `current.take()` loop). -/
def matchChainAux : List (SynMatcher × List (String × StyleValue)) → List MNode → Props → Option Props
  | [], _, vars => some vars
  | _ :: _, [], _ => none
  | m :: ms, n :: up, vars =>
    match matchMatcher m n vars with
    | none => none
    | some vars' => matchChainAux ms up vars'

/-- Whether a rule's whole chain matches the node chain (node first, then
its ancestors), returning the bound-variable environment. -/
def matchRule (chain : List MNode) (r : SynRule) : Option Props :=
  matchChainAux r.matchers.reverse chain []

/-- A matched rule as produced by the rule iterator (`rule::Rule`): the
rule's style block plus the variable bindings collected while matching. -/
structure CRule where
  styles : List (String × Expr)
  vars : Props

/-- The matched rules for a node in application order
(`Styles::find_matching_rules` composed with `RuleIter`): the node's
terminal-matcher bucket is iterated in reverse insertion order, keeping the
rules whose chain matches. -/
def findMatchingRules (st : StylesT) (self : MNode) (ancestors : List MNode) : List CRule :=
  ((rulesByBase st.styles (nodeKey self)).reverse).filterMap
    (fun r => (matchRule (self :: ancestors) r).map fun vars => CRule.mk r.styles vars)

/-- Evaluation of one property of a matched rule (`Rule::get_value`
specialised to `V = Value`): look the expression up in the style block and
evaluate it; an evaluation error is logged in the source and yields no
value here. -/
def ruleGetValue (st : StylesT) (parentRect : Rect) (r : CRule) (key : String) : Option Value :=
  match lookupA r.styles key with
  | some e =>
    match evalExpr st r.vars parentRect e with
    | .ok v => some v
    | .error _ => none
  | none => none

/-- The computed per-node render data (`RenderObject` in `src/lib.rs`).
The pluggable layout-engine instance and the renderer-private
`render_info`/`text_splits` fields are omitted (see the module comment). -/
structure RenderObject where
  drawRect : Rect
  minSize : Int × Int
  maxSize : Option Int × Option Int
  vars : Props
  text : Option String
  scrollPosition : ℚ × ℚ
  clipOverflow : Bool
deriving DecidableEq, Repr

/-- The `Default` instance of `RenderObject`. -/
def defaultRenderObject : RenderObject :=
  { drawRect := ⟨0, 0, 0, 0⟩
    minSize := (0, 0)
    maxSize := (none, none)
    vars := []
    text := none
    scrollPosition := (0, 0)
    clipOverflow := false }

/-- Value lookup on a render object (`RenderObject::get_value` before the
typed conversion): the three reserved names read the dedicated fields,
everything else reads the `vars` map. -/
def getValueValue (o : RenderObject) (name : String) : Option Value :=
  if name = "scroll_x" then some (.float o.scrollPosition.1)
  else if name = "scroll_y" then some (.float o.scrollPosition.2)
  else if name = "clip_overflow" then some (.boolean o.clipOverflow)
  else lookupA o.vars name

/-- Lookup of an `i32`-typed style value (`get_value::<i32>`). -/
def RenderObject.getI32 (o : RenderObject) (name : String) : Option Int :=
  (getValueValue o name).bind convI32

/-- Lookup of a `bool`-typed style value (`get_value::<bool>`). -/
def RenderObject.getBool (o : RenderObject) (name : String) : Option Bool :=
  (getValueValue o name).bind convBool

/-- The built-in absolute layout's `pre_position_child`: copy `x`, `y`,
`width`/`min_width`, `height`/`min_height` into the draw rectangle and
derive `min_size`/`max_size`. -/
def prePositionChild (obj : RenderObject) (_parent : RenderObject) : RenderObject :=
  let width := obj.getI32 "width"
  let height := obj.getI32 "height"
  let dr : Rect :=
    { x := (obj.getI32 "x").getD 0
      y := (obj.getI32 "y").getD 0
      width := (width.orElse fun _ => obj.getI32 "min_width").getD 0
      height := (height.orElse fun _ => obj.getI32 "min_height").getD 0 }
  { obj with
    drawRect := dr
    minSize := (dr.width, dr.height)
    maxSize := (width.orElse fun _ => obj.getI32 "max_width",
                height.orElse fun _ => obj.getI32 "max_height") }

/-- The built-in absolute layout's `finalize_layout`: when `auto_size` is
set, grow the draw rectangle to the children's extents, clamped to
`max_size`. -/
def finalizeLayout (obj : RenderObject) (children : List RenderObject) : RenderObject :=
  if !((obj.getBool "auto_size").getD false) then obj
  else
    let m := children.foldl
      (fun (m : Int × Int) c =>
        (max m.1 (c.drawRect.x + c.drawRect.width), max m.2 (c.drawRect.y + c.drawRect.height)))
      obj.minSize
    let w := match obj.maxSize.1 with
      | some v => min v m.1
      | none => m.1
    let h := match obj.maxSize.2 with
      | some v => min v m.2
      | none => m.2
    { obj with drawRect := { obj.drawRect with width := w, height := h } }

/-- The running state of the cascade loop in `Node::layout` (lines
426-457 of `src/lib.rs`): the three reserved-property first-wins flags plus
the fields and vars of the render object under construction. -/
structure CAcc where
  sxSet : Bool
  sySet : Bool
  clipSet : Bool
  scroll : ℚ × ℚ
  clip : Bool
  vars : Props
deriving Repr

/-- Processing of one style-block key of one matched rule (the `match key`
in `Node::layout`): the three reserved properties set their field the first
time a rule produces a convertible value; all other properties go into
`vars` only if the entry is still vacant. -/
def applyKey (st : StylesT) (parentRect : Rect) (r : CRule) (acc : CAcc) (key : String) : CAcc :=
  if key = "scroll_x" then
    if acc.sxSet then acc
    else
      match (ruleGetValue st parentRect r key).bind convF64 with
      | some v => { acc with sxSet := true, scroll := (v, acc.scroll.2) }
      | none => acc
  else if key = "scroll_y" then
    if acc.sySet then acc
    else
      match (ruleGetValue st parentRect r key).bind convF64 with
      | some v => { acc with sySet := true, scroll := (acc.scroll.1, v) }
      | none => acc
  else if key = "clip_overflow" then
    if acc.clipSet then acc
    else
      match (ruleGetValue st parentRect r key).bind convBool with
      | some v => { acc with clipSet := true, clip := v }
      | none => acc
  else
    match lookupA acc.vars key with
    | some _ => acc
    | none =>
      match ruleGetValue st parentRect r key with
      | some v => { acc with vars := insertA acc.vars key v }
      | none => acc

/-- Processing of all keys of one matched rule
(`for key in rule.syn.styles.keys()`). -/
def cascadeRule (st : StylesT) (parentRect : Rect) (acc : CAcc) (r : CRule) : CAcc :=
  (r.styles.map Prod.fst).foldl (applyKey st parentRect r) acc

/-- The whole cascade loop over the matched rules, starting from the
fields of a default render object. -/
def cascade (st : StylesT) (parentRect : Rect) (rules : List CRule) : CAcc :=
  rules.foldl (cascadeRule st parentRect) ⟨false, false, false, (0, 0), false, []⟩

/-- The parent rectangle used by the cascade: the parent's draw rectangle,
or the zero rectangle when the node has no parent. -/
def parentRectOf (parentObj : Option RenderObject) : Rect :=
  match parentObj with
  | some p => p.drawRect
  | none => ⟨0, 0, 0, 0⟩

/-- Construction of a node's fresh render object during layout (the rebuild
branch of `Node::layout`): run the cascade into a default object, let the
parent's layout engine position it, and copy the text of a text node.  The
engine-selection step (`vars["layout"]`) can only ever select the built-in
absolute engine here and leaves no observable trace. -/
def computeObj (st : StylesT) (ancestors : List MNode) (parentObj : Option RenderObject)
    (self : MNode) (txt : Option String) : RenderObject :=
  let parentRect := parentRectOf parentObj
  let rules := findMatchingRules st self ancestors
  let acc := cascade st parentRect rules
  let obj : RenderObject :=
    { defaultRenderObject with
      scrollPosition := acc.scroll
      clipOverflow := acc.clip
      vars := acc.vars }
  let obj :=
    match parentObj with
    | some p => prePositionChild obj p
    | none => obj
  { obj with text := txt }

/-- A node of the UI tree (`Node`/`NodeInner`/`NodeValue` in
`src/lib.rs`): an element with a name and children, or a text leaf; both
carry a property bag, a dirty flag and an optional cached render object.
Parent links are implicit: a child's parent is the node above it, and the
layout recursion passes the parent's render object down exactly as the
source reads it through the upgraded weak link. -/
inductive NodeT where
  | elem (name : String) (props : Props) (dirty : Bool) (obj : Option RenderObject) (children : List NodeT)
  | text (s : String) (props : Props) (dirty : Bool) (obj : Option RenderObject)
deriving Repr

/-- The cached render object of a node. -/
def NodeT.obj : NodeT → Option RenderObject
  | .elem _ _ _ o _ => o
  | .text _ _ _ o => o

/-- The children of a node (empty for text nodes). -/
def NodeT.childrenOf : NodeT → List NodeT
  | .elem _ _ _ _ cs => cs
  | .text _ _ _ _ => []

/-- Whether a node is an element. -/
def NodeT.isElem : NodeT → Bool
  | .elem _ _ _ _ _ => true
  | .text _ _ _ _ => false

/-- The matcher-visible data of a node. -/
def NodeT.mnode : NodeT → MNode
  | .elem n p _ _ _ => ⟨false, n, p⟩
  | .text _ p _ _ => ⟨true, "", p⟩

/-- Dropping a node's cached render object (`c.inner.borrow_mut().render_object = None`). -/
def clearObj : NodeT → NodeT
  | .elem n p d _ cs => .elem n p d none cs
  | .text s p d _ => .text s p d none

mutual

/-- Recursive dirtiness check (`Node::check_dirty`): a node is dirty if its
own flag is set or any descendant's is. -/
def checkDirty : NodeT → Bool
  | .text _ _ d _ => d
  | .elem _ _ d _ cs => d || checkDirtyList cs

/-- Dirtiness check over a child list. -/
def checkDirtyList : List NodeT → Bool
  | [] => false
  | c :: cs => checkDirty c || checkDirtyList cs

end

mutual

/-- Per-node layout (`Node::layout`).  When the node has no render object
or `force` is set, a fresh object is computed via the cascade and the
parent engine's `pre_position_child`, and the node's dirty flag is cleared.
Children are then laid out with this node's (absolute) engine and the local
dirty flag as their force flag, and if the node was re-laid-out its engine
finalizes the layout over the children's objects (`post_position_child` of
the absolute engine is a no-op). -/
def layoutNode (st : StylesT) (ancestors : List MNode) (parentObj : Option RenderObject)
    (force : Bool) : NodeT → NodeT
  | .text s props d obj =>
    if obj.isNone || force then
      .text s props false (some (computeObj st ancestors parentObj ⟨true, "", props⟩ (some s)))
    else
      .text s props d obj
  | .elem name props d obj cs =>
    let dirty := force || obj.isNone
    let obj1 : RenderObject :=
      match obj with
      | none => computeObj st ancestors parentObj ⟨false, name, props⟩ none
      | some o => if force then computeObj st ancestors parentObj ⟨false, name, props⟩ none else o
    let d1 := if dirty then false else d
    let cs1 := layoutChildren st (⟨false, name, props⟩ :: ancestors) (some obj1) dirty cs
    let obj2 := if dirty then finalizeLayout obj1 (cs1.filterMap NodeT.obj) else obj1
    .elem name props d1 (some obj2) cs1

/-- Layout of a child list (the `for c in &e.children` recursion). -/
def layoutChildren (st : StylesT) (ancestors : List MNode) (parentObj : Option RenderObject)
    (force : Bool) : List NodeT → List NodeT
  | [] => []
  | c :: cs =>
    layoutNode st ancestors parentObj force c :: layoutChildren st ancestors parentObj force cs

end

/-- Creation of a fresh element node (`Node::new`): no parent, no
properties, dirty, no render object. -/
def nodeNew (name : String) : NodeT :=
  .elem name [] true none []

/-- Creation of a fresh text node (`Node::new_text`). -/
def nodeNewText (s : String) : NodeT :=
  .text s [] true none

/-- Setting a property on a node (`Node::set_property`): inserts the value
and marks the node dirty. -/
def setProp (n : NodeT) (key : String) (v : Value) : NodeT :=
  match n with
  | .elem name p _ o cs => .elem name (insertA p key v) true o cs
  | .text s p _ o => .text s (insertA p key v) true o

/-- The raw position of a node (`Node::raw_position`): the cached draw
rectangle, or the zero rectangle when the node has never been laid out. -/
def rawPosition (n : NodeT) : Rect :=
  match n.obj with
  | some o => o.drawRect
  | none => ⟨0, 0, 0, 0⟩

/-- One ancestor step of `Node::render_position`: shift by the ancestor's
scroll offset, crop to its draw rectangle when it clips overflow, bail out
when the rectangle degenerates, then translate into the ancestor's frame. -/
def rpStep (p : RenderObject) (rect : Rect) : Option Rect :=
  let r1 : Rect := { rect with
    x := rect.x + truncQ p.scrollPosition.1
    y := rect.y + truncQ p.scrollPosition.2 }
  let r2 :=
    if p.clipOverflow then
      let a := if r1.x < 0 then { r1 with width := r1.width + r1.x, x := 0 } else r1
      let b := if a.y < 0 then { a with height := a.height + a.y, y := 0 } else a
      let c := if b.x + b.width ≥ p.drawRect.width
        then { b with width := b.width - (b.x + b.width - p.drawRect.width) } else b
      if c.y + c.height ≥ p.drawRect.height
        then { c with height := c.height - (c.y + c.height - p.drawRect.height) } else c
    else r1
  if r2.width ≤ 0 ∨ r2.height ≤ 0 then none
  else some { r2 with x := r2.x + p.drawRect.x, y := r2.y + p.drawRect.y }

/-- The ancestor walk of `Node::render_position`, given the render objects
of the ancestors from the nearest parent outward; an ancestor without a
render object aborts with `none`, as does a fully clipped rectangle. -/
def renderPositionWalk : Rect → List (Option RenderObject) → Option Rect
  | rect, [] => some rect
  | _, none :: _ => none
  | rect, some p :: rest =>
    match rpStep p rect with
    | none => none
    | some r => renderPositionWalk r rest

/-- The rendering position of a node (`Node::render_position`), given its
own render object and its ancestors' render objects from the nearest parent
outward. -/
def renderPositionFrom (selfObj : Option RenderObject) (ancObjs : List (Option RenderObject)) : Option Rect :=
  match selfObj with
  | none => none
  | some o => renderPositionWalk o.drawRect ancObjs

/-- The layout manager (`Manager` in `src/lib.rs`): the root node, the size
of the previous layout call, the manager's own dirty flag and the loaded
styles. -/
structure Manager where
  root : NodeT
  lastSize : Int × Int
  dirty : Bool
  styles : StylesT

/-- Creation of a manager (`Manager::new`): an element root named
`"root"` that already owns a default render object and is not dirty, last
size `(0,0)`, manager dirty flag set, no documents loaded. -/
def managerNew : Manager :=
  { root := .elem "root" [] false (some defaultRenderObject) []
    lastSize := (0, 0)
    dirty := true
    styles := ⟨[], []⟩ }

/-- The `force_dirty` computation at the top of `Manager::layout`: the size
changed since the previous layout call, or the manager's own dirty flag is
set. -/
def managerForceDirty (m : Manager) (w h : Int) : Bool :=
  decide (m.lastSize ≠ (w, h)) || m.dirty

/-- The layout driver (`Manager::layout`): compute `force_dirty`, reset the
manager's dirty flag, record the size, set the root's `width`/`height`
properties and give the root a fresh `(0,0,w,h)` render object; then clear
the render object of every top-level child whose subtree is dirty, and if
anything (or `force_dirty`) was dirty, lay out every top-level child with
`force_dirty` and return `true`. -/
def managerLayout (m : Manager) (w h : Int) : Manager × Bool :=
  let force := managerForceDirty m w h
  let rootObjNew : RenderObject := { defaultRenderObject with drawRect := ⟨0, 0, w, h⟩ }
  match m.root with
  | .text s props _ _ =>
    let props1 := insertA (insertA props "width" (.integer w)) "height" (.integer h)
    ({ root := .text s props1 true (some rootObjNew)
       lastSize := (w, h), dirty := false, styles := m.styles }, false)
  | .elem name props _ _ cs =>
    let props1 := insertA (insertA props "width" (.integer w)) "height" (.integer h)
    let cs1 := cs.map (fun c => if checkDirty c then clearObj c else c)
    let dirtyTop := force || checkDirtyList cs
    let cs2 := if dirtyTop
      then layoutChildren m.styles [⟨false, name, props1⟩] (some rootObjNew) force cs1
      else cs1
    ({ root := .elem name props1 true (some rootObjNew) cs2
       lastSize := (w, h), dirty := false, styles := m.styles }, dirtyTop)

/-- The per-node record of the heap model of the shared-ownership tree
(`NodeInner` restricted to the fields `add_child`/`remove_child` touch):
the weak parent link (a node id, or `none` when detached), whether the node
is an element, the ordered child-id list and the dirty flag. -/
structure NodeRec where
  parent : Option Nat
  isElement : Bool
  childIds : List Nat
  dirty : Bool
deriving DecidableEq, Repr

/-- A heap of live nodes, addressed by id.  A weak link upgrades exactly
when its target id is present. -/
abbrev Heap := List (Nat × NodeRec)

/-- Heap lookup (upgrading a reference to a node). -/
def hget : Heap → Nat → Option NodeRec
  | [], _ => none
  | (i, r) :: rest, j => if i = j then some r else hget rest j

/-- Heap update of an existing node. -/
def hset : Heap → Nat → NodeRec → Heap
  | [], _, _ => []
  | (i, r) :: rest, j, nr => if i = j then (j, nr) :: rest else (i, r) :: hset rest j nr

/-- The mutation of `Node::remove_child(node)` on the heap model.  The
assertion requires the child's weak parent link to upgrade to a node that
is pointer-equal to `self`; a failed assertion, an invalid handle or a text
`self` panics, modelled as `none`.  On success the child is retained out of
`self`'s child list and `self` is marked dirty; the child's own record — in
particular its parent link — is left untouched, exactly as in the source. -/
def removeChild (h : Heap) (selfId childId : Nat) : Option Heap :=
  match hget h childId with
  | none => none
  | some ch =>
    match ch.parent with
    | none => none
    | some p =>
      if (hget h p).isSome then
        if p = selfId then
          match hget h selfId with
          | none => none
          | some sr =>
            if sr.isElement then
              some (hset h selfId
                { sr with childIds := sr.childIds.filter (fun i => i ≠ childId), dirty := true })
            else none
        else none
      else none

/-- The mutation of `Node::add_child(node)` on the heap model: panics
(`none`) when the child already has a parent or `self` is a text node;
otherwise points the child's weak parent link at `self` and appends the
child to `self`'s child list. -/
def addChild (h : Heap) (selfId childId : Nat) : Option Heap :=
  match hget h childId with
  | none => none
  | some ch =>
    if ch.parent.isSome then none
    else
      match hget h selfId with
      | none => none
      | some sr =>
        if sr.isElement then
          some (hset (hset h childId { ch with parent := some selfId }) selfId
            { sr with childIds := sr.childIds ++ [childId] })
        else none

/-! Helper lemmas about the association-list and option operations of the
model.  None of these name a claim's theorem. -/

/-- First-some choice on options, the shape of first-wins accumulation. -/
def orO {α : Type _} (a b : Option α) : Option α :=
  match a with
  | some v => some v
  | none => b

theorem orO_some {α : Type _} (v : α) (b : Option α) : orO (some v) b = some v := rfl

theorem orO_none {α : Type _} (b : Option α) : orO none b = b := rfl

theorem orO_assoc {α : Type _} (a b c : Option α) : orO (orO a b) c = orO a (orO b c) := by
  cases a <;> rfl

theorem orO_none_right {α : Type _} (a : Option α) : orO a none = a := by
  cases a <;> rfl

theorem lookupA_insertA_self {α : Type _} (ps : List (String × α)) (k : String) (v : α) :
    lookupA (insertA ps k v) k = some v := by
  induction ps with
  | nil => simp [insertA, lookupA]
  | cons hd tl ih =>
    by_cases h : hd.1 = k
    · simp [insertA, lookupA, h]
    · simp [insertA, lookupA, h, ih]

theorem lookupA_insertA_ne {α : Type _} (ps : List (String × α)) (k key : String) (v : α)
    (h : k ≠ key) : lookupA (insertA ps k v) key = lookupA ps key := by
  induction ps with
  | nil => simp [insertA, lookupA, h]
  | cons hd tl ih =>
    by_cases h2 : hd.1 = k
    · simp [insertA, lookupA, h2, h]
    · simp only [insertA, lookupA, h2, if_false]
      by_cases h3 : hd.1 = key <;> simp [lookupA, h3, ih]

theorem insertA_lookup_eq {α : Type _} (ps : List (String × α)) (k : String) (v : α)
    (h : lookupA ps k = some v) : insertA ps k v = ps := by
  induction ps with
  | nil => simp [lookupA] at h
  | cons hd tl ih =>
    by_cases h2 : hd.1 = k
    · simp only [lookupA, h2, if_pos] at h
      simp only [insertA, h2, if_pos]
      cases hd with
      | mk k' v' =>
        simp only at h2
        simp [h2, h.symm]
        simp [lookupA, h2] at h
        exact h.symm
    · simp only [lookupA, h2, if_neg, if_false] at h
      simp [insertA, h2, ih h]

theorem lookupA_eq_none_of_not_mem {α : Type _} (ps : List (String × α)) (k : String)
    (h : k ∉ ps.map Prod.fst) : lookupA ps k = none := by
  induction ps with
  | nil => rfl
  | cons hd tl ih =>
    simp only [List.map_cons, List.mem_cons] at h
    push_neg at h
    have hne : hd.1 ≠ k := fun hh => h.1 hh.symm
    simp [lookupA, hne, ih h.2]

theorem findSome?_append {α β : Type _} (l₁ l₂ : List α) (f : α → Option β) :
    (l₁ ++ l₂).findSome? f = orO (l₁.findSome? f) (l₂.findSome? f) := by
  induction l₁ with
  | nil => simp [List.findSome?, orO]
  | cons hd tl ih =>
    simp only [List.cons_append, List.findSome?_cons]
    cases f hd <;> simp [orO, ih]

theorem findSome?_filterMap {α β γ : Type _} (l : List α) (f : α → Option β) (g : β → Option γ) :
    (l.filterMap f).findSome? g = l.findSome? (fun x => (f x).bind g) := by
  induction l with
  | nil => simp
  | cons hd tl ih =>
    cases hf : f hd with
    | none => simp [List.filterMap_cons, hf, List.findSome?_cons, ih]
    | some b =>
      simp only [List.filterMap_cons, hf, List.findSome?_cons]
      cases hg : g b <;> simp [List.findSome?_cons, hf, hg, ih]

theorem wrap32_eq_self (k : Int) (h1 : -2 ^ 31 ≤ k) (h2 : k < 2 ^ 31) : wrap32 k = k := by
  unfold wrap32
  rw [Int.emod_eq_of_lt (by omega) (by omega)]
  omega

theorem wrap32_neg_neg (n : Int) (h1 : -2 ^ 31 ≤ n) (h2 : n < 2 ^ 31) :
    wrap32 (-wrap32 (-n)) = n := by
  rcases eq_or_lt_of_le h1 with he | hlt
  · have hn : n = -2 ^ 31 := he.symm
    subst hn
    decide
  · rw [wrap32_eq_self (-n) (by omega) (by omega), neg_neg, wrap32_eq_self n h1 h2]

/-! Lemmas characterising the cascade loop of `Node::layout` as first-wins
selection per property. -/

theorem ruleGetValue_of_no_key (st : StylesT) (rect : Rect) (r : CRule) (p : String)
    (h : lookupA r.styles p = none) : ruleGetValue st rect r p = none := by
  simp [ruleGetValue, h]

theorem lookupA_applyKey_vars (st : StylesT) (rect : Rect) (r : CRule) (acc : CAcc)
    (key p : String) (h1 : p ≠ "scroll_x") (h2 : p ≠ "scroll_y") (h3 : p ≠ "clip_overflow") :
    lookupA (applyKey st rect r acc key).vars p =
      if key = p then orO (lookupA acc.vars p) (ruleGetValue st rect r p)
      else lookupA acc.vars p := by
  by_cases hkp : key = p
  · subst hkp
    simp only [applyKey, h1, h2, h3, if_neg, if_false, if_pos]
    cases hl : lookupA acc.vars key with
    | some v => simp [hl, orO]
    | none =>
      cases hg : ruleGetValue st rect r key with
      | some v => simp [hl, hg, orO, lookupA_insertA_self]
      | none => simp [hl, hg, orO]
  · simp only [hkp, if_false, if_neg]
    unfold applyKey
    by_cases ha : key = "scroll_x"
    · subst ha
      cases acc.sxSet <;>
        cases (ruleGetValue st rect r "scroll_x").bind convF64 <;> simp
    · by_cases hb : key = "scroll_y"
      · subst hb
        simp only [ha, if_neg, if_false, if_pos]
        cases acc.sySet <;>
          cases (ruleGetValue st rect r "scroll_y").bind convF64 <;> simp
      · by_cases hc : key = "clip_overflow"
        · subst hc
          simp only [ha, hb, if_neg, if_false, if_pos]
          cases acc.clipSet <;>
            cases (ruleGetValue st rect r "clip_overflow").bind convBool <;> simp
        · simp only [ha, hb, hc, if_neg, if_false]
          cases hl : lookupA acc.vars key with
          | some v => simp [hl]
          | none =>
            cases hg : ruleGetValue st rect r key with
            | some v => simp [hl, hg, lookupA_insertA_ne _ _ _ _ hkp]
            | none => simp [hl, hg]

theorem lookupA_applyKeys_vars (st : StylesT) (rect : Rect) (r : CRule) (p : String)
    (h1 : p ≠ "scroll_x") (h2 : p ≠ "scroll_y") (h3 : p ≠ "clip_overflow") :
    ∀ (ks : List String) (acc : CAcc),
      lookupA ((ks.foldl (applyKey st rect r) acc).vars) p =
        if p ∈ ks then orO (lookupA acc.vars p) (ruleGetValue st rect r p)
        else lookupA acc.vars p := by
  intro ks
  induction ks with
  | nil => intro acc; simp
  | cons k ks ih =>
    intro acc
    simp only [List.foldl_cons]
    rw [ih, lookupA_applyKey_vars st rect r acc k p h1 h2 h3]
    by_cases hkp : k = p
    · subst hkp
      by_cases hm : k ∈ ks
      · simp only [if_pos rfl, if_pos hm, if_pos (List.mem_cons_self k ks)]
        cases lookupA acc.vars k <;> cases ruleGetValue st rect r k <;> simp [orO]
      · simp only [if_pos rfl, if_neg hm, if_pos (List.mem_cons_self k ks), if_true]
    · by_cases hm : p ∈ ks
      · simp only [if_neg hkp, if_pos hm, if_pos (List.mem_cons_of_mem k hm)]
      · have hnot : p ∉ k :: ks := by
          simp only [List.mem_cons, not_or]
          exact ⟨fun hh => hkp hh.symm, hm⟩
        simp only [if_neg hkp, if_neg hm, if_neg hnot]

theorem lookupA_cascadeRule_vars (st : StylesT) (rect : Rect) (r : CRule) (acc : CAcc)
    (p : String) (h1 : p ≠ "scroll_x") (h2 : p ≠ "scroll_y") (h3 : p ≠ "clip_overflow") :
    lookupA (cascadeRule st rect acc r).vars p =
      orO (lookupA acc.vars p) (ruleGetValue st rect r p) := by
  unfold cascadeRule
  rw [lookupA_applyKeys_vars st rect r p h1 h2 h3]
  by_cases hm : p ∈ r.styles.map Prod.fst
  · simp [hm]
  · rw [if_neg hm, ruleGetValue_of_no_key st rect r p (lookupA_eq_none_of_not_mem _ _ hm),
      orO_none_right]

theorem lookupA_cascade_foldl_vars (st : StylesT) (rect : Rect) (p : String)
    (h1 : p ≠ "scroll_x") (h2 : p ≠ "scroll_y") (h3 : p ≠ "clip_overflow") :
    ∀ (rules : List CRule) (acc : CAcc),
      lookupA ((rules.foldl (cascadeRule st rect) acc).vars) p =
        orO (lookupA acc.vars p) (rules.findSome? (fun r => ruleGetValue st rect r p)) := by
  intro rules
  induction rules with
  | nil => intro acc; simp [orO_none_right]
  | cons r rules ih =>
    intro acc
    simp only [List.foldl_cons, ih, List.findSome?_cons]
    rw [lookupA_cascadeRule_vars st rect r acc p h1 h2 h3]
    cases ruleGetValue st rect r p <;>
      cases lookupA acc.vars p <;> simp [orO]

theorem lookupA_cascade_vars (st : StylesT) (rect : Rect) (rules : List CRule) (p : String)
    (h1 : p ≠ "scroll_x") (h2 : p ≠ "scroll_y") (h3 : p ≠ "clip_overflow") :
    lookupA (cascade st rect rules).vars p =
      rules.findSome? (fun r => ruleGetValue st rect r p) := by
  unfold cascade
  rw [lookupA_cascade_foldl_vars st rect p h1 h2 h3 rules]
  simp [lookupA, orO]

theorem applyKey_vars_reserved (st : StylesT) (rect : Rect) (r : CRule) (acc : CAcc)
    (key p : String) (hp : p = "scroll_x" ∨ p = "scroll_y" ∨ p = "clip_overflow") :
    lookupA (applyKey st rect r acc key).vars p = lookupA acc.vars p := by
  unfold applyKey
  by_cases ha : key = "scroll_x"
  · simp only [ha, if_pos]
    cases acc.sxSet <;> cases (ruleGetValue st rect r "scroll_x").bind convF64 <;> simp
  · by_cases hb : key = "scroll_y"
    · simp only [ha, hb, if_neg, if_false, if_pos]
      cases acc.sySet <;> cases (ruleGetValue st rect r "scroll_y").bind convF64 <;> simp
    · by_cases hc : key = "clip_overflow"
      · simp only [ha, hb, hc, if_neg, if_false, if_pos]
        cases acc.clipSet <;> cases (ruleGetValue st rect r "clip_overflow").bind convBool <;> simp
      · simp only [ha, hb, hc, if_neg, if_false]
        have hkp : key ≠ p := by
          rcases hp with hp | hp | hp <;> rw [hp] <;> assumption
        cases lookupA acc.vars key with
        | some v => simp
        | none =>
          cases ruleGetValue st rect r key with
          | some v => simp [lookupA_insertA_ne _ _ _ _ hkp]
          | none => simp

theorem cascadeRule_vars_reserved (st : StylesT) (rect : Rect) (r : CRule) (acc : CAcc)
    (p : String) (hp : p = "scroll_x" ∨ p = "scroll_y" ∨ p = "clip_overflow")
    (h : lookupA acc.vars p = none) :
    lookupA (cascadeRule st rect acc r).vars p = none := by
  unfold cascadeRule
  have inner : ∀ (ks : List String) (acc : CAcc), lookupA acc.vars p = none →
      lookupA ((ks.foldl (applyKey st rect r) acc).vars) p = none := by
    intro ks
    induction ks with
    | nil => intro acc h2; simpa using h2
    | cons k ks ih2 =>
      intro acc h2
      simp only [List.foldl_cons]
      exact ih2 _ (by rw [applyKey_vars_reserved st rect r acc k p hp]; exact h2)
  exact inner _ _ h

theorem cascade_vars_reserved (st : StylesT) (rect : Rect) (rules : List CRule) (p : String)
    (hp : p = "scroll_x" ∨ p = "scroll_y" ∨ p = "clip_overflow") :
    lookupA (cascade st rect rules).vars p = none := by
  unfold cascade
  suffices h : ∀ (rules : List CRule) (acc : CAcc), lookupA acc.vars p = none →
      lookupA ((rules.foldl (cascadeRule st rect) acc).vars) p = none from
    h rules _ rfl
  intro rules
  induction rules with
  | nil => intro acc h; simpa using h
  | cons r rules ih =>
    intro acc h
    simp only [List.foldl_cons]
    exact ih _ (cascadeRule_vars_reserved st rect r acc p hp h)

theorem applyKey_sxSet (st : StylesT) (rect : Rect) (r : CRule) (acc : CAcc) (key : String) :
    (applyKey st rect r acc key).sxSet =
      if key = "scroll_x"
        then acc.sxSet || ((ruleGetValue st rect r "scroll_x").bind convF64).isSome
        else acc.sxSet := by
  obtain ⟨sx, sy, cl, sc, cp, vs⟩ := acc
  unfold applyKey
  by_cases ha : key = "scroll_x"
  · subst ha
    simp only [if_pos rfl]
    cases sx <;> cases hg : (ruleGetValue st rect r "scroll_x").bind convF64 <;> simp [hg]
  · by_cases hb : key = "scroll_y"
    · simp only [ha, hb, if_neg, if_false, if_pos]
      cases sy <;> cases hg : (ruleGetValue st rect r "scroll_y").bind convF64 <;> simp [hg]
    · by_cases hc : key = "clip_overflow"
      · simp only [ha, hb, hc, if_neg, if_false, if_pos]
        cases cl <;> cases hg : (ruleGetValue st rect r "clip_overflow").bind convBool <;> simp [hg]
      · simp only [ha, hb, hc, if_neg, if_false]
        cases hl : lookupA vs key <;> cases hg : ruleGetValue st rect r key <;> simp [hl, hg]

theorem applyKey_scroll1 (st : StylesT) (rect : Rect) (r : CRule) (acc : CAcc) (key : String) :
    (applyKey st rect r acc key).scroll.1 =
      if key = "scroll_x" ∧ acc.sxSet = false
        then ((ruleGetValue st rect r "scroll_x").bind convF64).getD acc.scroll.1
        else acc.scroll.1 := by
  obtain ⟨sx, sy, cl, sc, cp, vs⟩ := acc
  unfold applyKey
  by_cases ha : key = "scroll_x"
  · subst ha
    simp only [if_pos rfl]
    cases sx <;> cases hg : (ruleGetValue st rect r "scroll_x").bind convF64 <;> simp [hg]
  · by_cases hb : key = "scroll_y"
    · simp only [ha, hb, if_neg, if_false, if_pos, false_and]
      cases sy <;> cases hg : (ruleGetValue st rect r "scroll_y").bind convF64 <;> simp [hg]
    · by_cases hc : key = "clip_overflow"
      · simp only [ha, hb, hc, if_neg, if_false, if_pos, false_and]
        cases cl <;> cases hg : (ruleGetValue st rect r "clip_overflow").bind convBool <;> simp [hg]
      · simp only [ha, hb, hc, if_neg, if_false, false_and]
        cases hl : lookupA vs key <;> cases hg : ruleGetValue st rect r key <;> simp [hl, hg]

theorem cascadeRule_sxSet (st : StylesT) (rect : Rect) (r : CRule) (acc : CAcc) :
    (cascadeRule st rect acc r).sxSet =
      (acc.sxSet || ((ruleGetValue st rect r "scroll_x").bind convF64).isSome) := by
  unfold cascadeRule
  have inner : ∀ (ks : List String) (acc : CAcc),
      ((ks.foldl (applyKey st rect r) acc)).sxSet =
        (acc.sxSet ||
          (decide ("scroll_x" ∈ ks) && ((ruleGetValue st rect r "scroll_x").bind convF64).isSome)) := by
    intro ks
    induction ks with
    | nil => intro acc; simp
    | cons k ks ih =>
      intro acc
      simp only [List.foldl_cons, ih, applyKey_sxSet]
      by_cases hk : k = "scroll_x"
      · subst hk
        have hmem : ("scroll_x" : String) ∈ "scroll_x" :: ks := List.mem_cons_self _ _
        rw [if_pos rfl, decide_eq_true hmem]
        cases acc.sxSet <;>
          cases ((ruleGetValue st rect r "scroll_x").bind convF64).isSome <;>
          cases decide ("scroll_x" ∈ ks) <;> simp
      · simp only [hk, if_neg, if_false, List.mem_cons]
        have : (("scroll_x" = k ∨ "scroll_x" ∈ ks) ↔ "scroll_x" ∈ ks) := by
          constructor
          · rintro (hh | hh)
            · exact absurd hh.symm hk
            · exact hh
          · exact Or.inr
        simp [this]
  rw [inner]
  by_cases hm : "scroll_x" ∈ r.styles.map Prod.fst
  · simp [hm]
  · have : ruleGetValue st rect r "scroll_x" = none :=
      ruleGetValue_of_no_key st rect r _ (lookupA_eq_none_of_not_mem _ _ hm)
    simp [hm, this]

theorem cascadeRule_scroll1 (st : StylesT) (rect : Rect) (r : CRule) (acc : CAcc) :
    (cascadeRule st rect acc r).scroll.1 =
      if acc.sxSet = false
        then ((ruleGetValue st rect r "scroll_x").bind convF64).getD acc.scroll.1
        else acc.scroll.1 := by
  unfold cascadeRule
  have inner : ∀ (ks : List String) (acc : CAcc),
      ((ks.foldl (applyKey st rect r) acc)).scroll.1 =
        if ("scroll_x" ∈ ks) ∧ acc.sxSet = false
          then ((ruleGetValue st rect r "scroll_x").bind convF64).getD acc.scroll.1
          else acc.scroll.1 := by
    intro ks
    induction ks with
    | nil => intro acc; simp
    | cons k ks ih =>
      intro acc
      simp only [List.foldl_cons, ih, applyKey_scroll1, applyKey_sxSet]
      by_cases hk : k = "scroll_x"
      · subst hk
        cases hx : acc.sxSet with
        | true =>
          simp only [if_pos rfl, Bool.true_or, and_false, if_neg, if_false]
          simp
        | false =>
          simp only [if_pos rfl, Bool.false_or, and_true, eq_self_iff_true, true_and]
          cases hg : (ruleGetValue st rect r "scroll_x").bind convF64 with
          | some v =>
            simp [hg, List.mem_cons]
          | none =>
            by_cases hm : "scroll_x" ∈ ks <;> simp [hg, hm, List.mem_cons]
      · have hiff : (("scroll_x" ∈ k :: ks) ↔ "scroll_x" ∈ ks) := by
          simp only [List.mem_cons]
          constructor
          · rintro (hh | hh)
            · exact absurd hh.symm hk
            · exact hh
          · exact Or.inr
        simp only [hk, if_neg, if_false, false_and, hiff]
  rw [inner]
  by_cases hm : "scroll_x" ∈ r.styles.map Prod.fst
  · simp [hm]
  · have hg : ruleGetValue st rect r "scroll_x" = none :=
      ruleGetValue_of_no_key st rect r _ (lookupA_eq_none_of_not_mem _ _ hm)
    by_cases hx : acc.sxSet <;> simp [hm, hg, hx]

theorem cascade_foldl_scroll1 (st : StylesT) (rect : Rect) :
    ∀ (rules : List CRule) (acc : CAcc),
      ((rules.foldl (cascadeRule st rect) acc)).scroll.1 =
        if acc.sxSet = false
          then (rules.findSome? fun r => (ruleGetValue st rect r "scroll_x").bind convF64).getD acc.scroll.1
          else acc.scroll.1 := by
  intro rules
  induction rules with
  | nil => intro acc; cases hx : acc.sxSet <;> simp [hx]
  | cons r rules ih =>
    intro acc
    simp only [List.foldl_cons, ih, cascadeRule_sxSet, cascadeRule_scroll1, List.findSome?_cons]
    cases hx : acc.sxSet with
    | true => simp
    | false =>
      cases hg : (ruleGetValue st rect r "scroll_x").bind convF64 with
      | some v => simp [hg]
      | none => simp [hg]

theorem cascade_scroll1 (st : StylesT) (rect : Rect) (rules : List CRule) :
    (cascade st rect rules).scroll.1 =
      (rules.findSome? fun r => (ruleGetValue st rect r "scroll_x").bind convF64).getD 0 := by
  unfold cascade
  rw [cascade_foldl_scroll1]
  rfl

theorem applyKey_sySet (st : StylesT) (rect : Rect) (r : CRule) (acc : CAcc) (key : String) :
    (applyKey st rect r acc key).sySet =
      if key = "scroll_y"
        then acc.sySet || ((ruleGetValue st rect r "scroll_y").bind convF64).isSome
        else acc.sySet := by
  obtain ⟨sx, sy, cl, sc, cp, vs⟩ := acc
  unfold applyKey
  by_cases ha : key = "scroll_x"
  · simp only [ha, if_pos]
    have : ("scroll_x" : String) ≠ "scroll_y" := by decide
    simp only [this, if_neg, if_false]
    cases sx <;> cases hg : (ruleGetValue st rect r "scroll_x").bind convF64 <;> simp [hg]
  · by_cases hb : key = "scroll_y"
    · subst hb
      simp only [ha, if_neg, if_false, if_pos rfl]
      cases sy <;> cases hg : (ruleGetValue st rect r "scroll_y").bind convF64 <;> simp [hg]
    · by_cases hc : key = "clip_overflow"
      · simp only [ha, hb, hc, if_neg, if_false, if_pos]
        cases cl <;> cases hg : (ruleGetValue st rect r "clip_overflow").bind convBool <;> simp [hg]
      · simp only [ha, hb, hc, if_neg, if_false]
        cases hl : lookupA vs key <;> cases hg : ruleGetValue st rect r key <;> simp [hl, hg]

theorem applyKey_scroll2 (st : StylesT) (rect : Rect) (r : CRule) (acc : CAcc) (key : String) :
    (applyKey st rect r acc key).scroll.2 =
      if key = "scroll_y" ∧ acc.sySet = false
        then ((ruleGetValue st rect r "scroll_y").bind convF64).getD acc.scroll.2
        else acc.scroll.2 := by
  obtain ⟨sx, sy, cl, sc, cp, vs⟩ := acc
  unfold applyKey
  by_cases ha : key = "scroll_x"
  · simp only [ha, if_pos]
    have : ("scroll_x" : String) ≠ "scroll_y" := by decide
    simp only [this, false_and, if_neg, if_false]
    cases sx <;> cases hg : (ruleGetValue st rect r "scroll_x").bind convF64 <;> simp [hg]
  · by_cases hb : key = "scroll_y"
    · subst hb
      simp only [ha, if_neg, if_false, if_pos rfl, true_and]
      cases sy <;> cases hg : (ruleGetValue st rect r "scroll_y").bind convF64 <;> simp [hg]
    · by_cases hc : key = "clip_overflow"
      · simp only [ha, hb, hc, if_neg, if_false, if_pos, false_and]
        cases cl <;> cases hg : (ruleGetValue st rect r "clip_overflow").bind convBool <;> simp [hg]
      · simp only [ha, hb, hc, if_neg, if_false, false_and]
        cases hl : lookupA vs key <;> cases hg : ruleGetValue st rect r key <;> simp [hl, hg]

theorem cascadeRule_sySet (st : StylesT) (rect : Rect) (r : CRule) (acc : CAcc) :
    (cascadeRule st rect acc r).sySet =
      (acc.sySet || ((ruleGetValue st rect r "scroll_y").bind convF64).isSome) := by
  unfold cascadeRule
  have inner : ∀ (ks : List String) (acc : CAcc),
      ((ks.foldl (applyKey st rect r) acc)).sySet =
        (acc.sySet ||
          (decide ("scroll_y" ∈ ks) && ((ruleGetValue st rect r "scroll_y").bind convF64).isSome)) := by
    intro ks
    induction ks with
    | nil => intro acc; simp
    | cons k ks ih =>
      intro acc
      simp only [List.foldl_cons, ih, applyKey_sySet]
      by_cases hk : k = "scroll_y"
      · subst hk
        have hmem : ("scroll_y" : String) ∈ "scroll_y" :: ks := List.mem_cons_self _ _
        rw [if_pos rfl, decide_eq_true hmem]
        cases acc.sySet <;>
          cases ((ruleGetValue st rect r "scroll_y").bind convF64).isSome <;>
          cases decide ("scroll_y" ∈ ks) <;> simp
      · simp only [hk, if_neg, if_false, List.mem_cons]
        have : (("scroll_y" = k ∨ "scroll_y" ∈ ks) ↔ "scroll_y" ∈ ks) := by
          constructor
          · rintro (hh | hh)
            · exact absurd hh.symm hk
            · exact hh
          · exact Or.inr
        simp [this]
  rw [inner]
  by_cases hm : "scroll_y" ∈ r.styles.map Prod.fst
  · simp [hm]
  · have : ruleGetValue st rect r "scroll_y" = none :=
      ruleGetValue_of_no_key st rect r _ (lookupA_eq_none_of_not_mem _ _ hm)
    simp [hm, this]

theorem cascadeRule_scroll2 (st : StylesT) (rect : Rect) (r : CRule) (acc : CAcc) :
    (cascadeRule st rect acc r).scroll.2 =
      if acc.sySet = false
        then ((ruleGetValue st rect r "scroll_y").bind convF64).getD acc.scroll.2
        else acc.scroll.2 := by
  unfold cascadeRule
  have inner : ∀ (ks : List String) (acc : CAcc),
      ((ks.foldl (applyKey st rect r) acc)).scroll.2 =
        if ("scroll_y" ∈ ks) ∧ acc.sySet = false
          then ((ruleGetValue st rect r "scroll_y").bind convF64).getD acc.scroll.2
          else acc.scroll.2 := by
    intro ks
    induction ks with
    | nil => intro acc; simp
    | cons k ks ih =>
      intro acc
      simp only [List.foldl_cons, ih, applyKey_scroll2, applyKey_sySet]
      by_cases hk : k = "scroll_y"
      · subst hk
        cases hx : acc.sySet with
        | true =>
          simp only [if_pos rfl, Bool.true_or, and_false, if_neg, if_false]
          simp
        | false =>
          simp only [if_pos rfl, Bool.false_or, and_true, eq_self_iff_true, true_and]
          cases hg : (ruleGetValue st rect r "scroll_y").bind convF64 with
          | some v =>
            simp [hg, List.mem_cons]
          | none =>
            by_cases hm : "scroll_y" ∈ ks <;> simp [hg, hm, List.mem_cons]
      · have hiff : (("scroll_y" ∈ k :: ks) ↔ "scroll_y" ∈ ks) := by
          simp only [List.mem_cons]
          constructor
          · rintro (hh | hh)
            · exact absurd hh.symm hk
            · exact hh
          · exact Or.inr
        simp only [hk, if_neg, if_false, false_and, hiff]
  rw [inner]
  by_cases hm : "scroll_y" ∈ r.styles.map Prod.fst
  · simp [hm]
  · have hg : ruleGetValue st rect r "scroll_y" = none :=
      ruleGetValue_of_no_key st rect r _ (lookupA_eq_none_of_not_mem _ _ hm)
    by_cases hx : acc.sySet <;> simp [hm, hg, hx]

theorem cascade_foldl_scroll2 (st : StylesT) (rect : Rect) :
    ∀ (rules : List CRule) (acc : CAcc),
      ((rules.foldl (cascadeRule st rect) acc)).scroll.2 =
        if acc.sySet = false
          then (rules.findSome? fun r => (ruleGetValue st rect r "scroll_y").bind convF64).getD acc.scroll.2
          else acc.scroll.2 := by
  intro rules
  induction rules with
  | nil => intro acc; cases hx : acc.sySet <;> simp [hx]
  | cons r rules ih =>
    intro acc
    simp only [List.foldl_cons, ih, cascadeRule_sySet, cascadeRule_scroll2, List.findSome?_cons]
    cases hx : acc.sySet with
    | true => simp
    | false =>
      cases hg : (ruleGetValue st rect r "scroll_y").bind convF64 with
      | some v => simp [hg]
      | none => simp [hg]

theorem cascade_scroll2 (st : StylesT) (rect : Rect) (rules : List CRule) :
    (cascade st rect rules).scroll.2 =
      (rules.findSome? fun r => (ruleGetValue st rect r "scroll_y").bind convF64).getD 0 := by
  unfold cascade
  rw [cascade_foldl_scroll2]
  rfl

theorem applyKey_clipSet (st : StylesT) (rect : Rect) (r : CRule) (acc : CAcc) (key : String) :
    (applyKey st rect r acc key).clipSet =
      if key = "clip_overflow"
        then acc.clipSet || ((ruleGetValue st rect r "clip_overflow").bind convBool).isSome
        else acc.clipSet := by
  obtain ⟨sx, sy, cl, sc, cp, vs⟩ := acc
  unfold applyKey
  by_cases ha : key = "scroll_x"
  · simp only [ha, if_pos]
    have : ("scroll_x" : String) ≠ "clip_overflow" := by decide
    simp only [this, if_neg, if_false]
    cases sx <;> cases hg : (ruleGetValue st rect r "scroll_x").bind convF64 <;> simp [hg]
  · by_cases hb : key = "scroll_y"
    · simp only [ha, hb, if_neg, if_false, if_pos]
      have : ("scroll_y" : String) ≠ "clip_overflow" := by decide
      simp only [this, if_neg, if_false]
      cases sy <;> cases hg : (ruleGetValue st rect r "scroll_y").bind convF64 <;> simp [hg]
    · by_cases hc : key = "clip_overflow"
      · subst hc
        simp only [ha, hb, if_neg, if_false, if_pos rfl]
        cases cl <;> cases hg : (ruleGetValue st rect r "clip_overflow").bind convBool <;> simp [hg]
      · simp only [ha, hb, hc, if_neg, if_false]
        cases hl : lookupA vs key <;> cases hg : ruleGetValue st rect r key <;> simp [hl, hg]

theorem applyKey_clip (st : StylesT) (rect : Rect) (r : CRule) (acc : CAcc) (key : String) :
    (applyKey st rect r acc key).clip =
      if key = "clip_overflow" ∧ acc.clipSet = false
        then ((ruleGetValue st rect r "clip_overflow").bind convBool).getD acc.clip
        else acc.clip := by
  obtain ⟨sx, sy, cl, sc, cp, vs⟩ := acc
  unfold applyKey
  by_cases ha : key = "scroll_x"
  · simp only [ha, if_pos]
    have : ("scroll_x" : String) ≠ "clip_overflow" := by decide
    simp only [this, false_and, if_neg, if_false]
    cases sx <;> cases hg : (ruleGetValue st rect r "scroll_x").bind convF64 <;> simp [hg]
  · by_cases hb : key = "scroll_y"
    · simp only [ha, hb, if_neg, if_false, if_pos]
      have : ("scroll_y" : String) ≠ "clip_overflow" := by decide
      simp only [this, false_and, if_neg, if_false]
      cases sy <;> cases hg : (ruleGetValue st rect r "scroll_y").bind convF64 <;> simp [hg]
    · by_cases hc : key = "clip_overflow"
      · subst hc
        simp only [ha, hb, if_neg, if_false, if_pos rfl, true_and]
        cases cl <;> cases hg : (ruleGetValue st rect r "clip_overflow").bind convBool <;> simp [hg]
      · simp only [ha, hb, hc, if_neg, if_false, false_and]
        cases hl : lookupA vs key <;> cases hg : ruleGetValue st rect r key <;> simp [hl, hg]

theorem cascadeRule_clipSet (st : StylesT) (rect : Rect) (r : CRule) (acc : CAcc) :
    (cascadeRule st rect acc r).clipSet =
      (acc.clipSet || ((ruleGetValue st rect r "clip_overflow").bind convBool).isSome) := by
  unfold cascadeRule
  have inner : ∀ (ks : List String) (acc : CAcc),
      ((ks.foldl (applyKey st rect r) acc)).clipSet =
        (acc.clipSet ||
          (decide ("clip_overflow" ∈ ks) && ((ruleGetValue st rect r "clip_overflow").bind convBool).isSome)) := by
    intro ks
    induction ks with
    | nil => intro acc; simp
    | cons k ks ih =>
      intro acc
      simp only [List.foldl_cons, ih, applyKey_clipSet]
      by_cases hk : k = "clip_overflow"
      · subst hk
        have hmem : ("clip_overflow" : String) ∈ "clip_overflow" :: ks := List.mem_cons_self _ _
        rw [if_pos rfl, decide_eq_true hmem]
        cases acc.clipSet <;>
          cases ((ruleGetValue st rect r "clip_overflow").bind convBool).isSome <;>
          cases decide ("clip_overflow" ∈ ks) <;> simp
      · simp only [hk, if_neg, if_false, List.mem_cons]
        have : (("clip_overflow" = k ∨ "clip_overflow" ∈ ks) ↔ "clip_overflow" ∈ ks) := by
          constructor
          · rintro (hh | hh)
            · exact absurd hh.symm hk
            · exact hh
          · exact Or.inr
        simp [this]
  rw [inner]
  by_cases hm : "clip_overflow" ∈ r.styles.map Prod.fst
  · simp [hm]
  · have : ruleGetValue st rect r "clip_overflow" = none :=
      ruleGetValue_of_no_key st rect r _ (lookupA_eq_none_of_not_mem _ _ hm)
    simp [hm, this]

theorem cascadeRule_clip (st : StylesT) (rect : Rect) (r : CRule) (acc : CAcc) :
    (cascadeRule st rect acc r).clip =
      if acc.clipSet = false
        then ((ruleGetValue st rect r "clip_overflow").bind convBool).getD acc.clip
        else acc.clip := by
  unfold cascadeRule
  have inner : ∀ (ks : List String) (acc : CAcc),
      ((ks.foldl (applyKey st rect r) acc)).clip =
        if ("clip_overflow" ∈ ks) ∧ acc.clipSet = false
          then ((ruleGetValue st rect r "clip_overflow").bind convBool).getD acc.clip
          else acc.clip := by
    intro ks
    induction ks with
    | nil => intro acc; simp
    | cons k ks ih =>
      intro acc
      simp only [List.foldl_cons, ih, applyKey_clip, applyKey_clipSet]
      by_cases hk : k = "clip_overflow"
      · subst hk
        cases hx : acc.clipSet with
        | true =>
          simp only [if_pos rfl, Bool.true_or, and_false, if_neg, if_false]
          simp
        | false =>
          simp only [if_pos rfl, Bool.false_or, and_true, eq_self_iff_true, true_and]
          cases hg : (ruleGetValue st rect r "clip_overflow").bind convBool with
          | some v =>
            simp [hg, List.mem_cons]
          | none =>
            by_cases hm : "clip_overflow" ∈ ks <;> simp [hg, hm, List.mem_cons]
      · have hiff : (("clip_overflow" ∈ k :: ks) ↔ "clip_overflow" ∈ ks) := by
          simp only [List.mem_cons]
          constructor
          · rintro (hh | hh)
            · exact absurd hh.symm hk
            · exact hh
          · exact Or.inr
        simp only [hk, if_neg, if_false, false_and, hiff]
  rw [inner]
  by_cases hm : "clip_overflow" ∈ r.styles.map Prod.fst
  · simp [hm]
  · have hg : ruleGetValue st rect r "clip_overflow" = none :=
      ruleGetValue_of_no_key st rect r _ (lookupA_eq_none_of_not_mem _ _ hm)
    by_cases hx : acc.clipSet <;> simp [hm, hg, hx]

theorem cascade_foldl_clip (st : StylesT) (rect : Rect) :
    ∀ (rules : List CRule) (acc : CAcc),
      ((rules.foldl (cascadeRule st rect) acc)).clip =
        if acc.clipSet = false
          then (rules.findSome? fun r => (ruleGetValue st rect r "clip_overflow").bind convBool).getD acc.clip
          else acc.clip := by
  intro rules
  induction rules with
  | nil => intro acc; cases hx : acc.clipSet <;> simp [hx]
  | cons r rules ih =>
    intro acc
    simp only [List.foldl_cons, ih, cascadeRule_clipSet, cascadeRule_clip, List.findSome?_cons]
    cases hx : acc.clipSet with
    | true => simp
    | false =>
      cases hg : (ruleGetValue st rect r "clip_overflow").bind convBool with
      | some v => simp [hg]
      | none => simp [hg]

theorem cascade_clip (st : StylesT) (rect : Rect) (rules : List CRule) :
    (cascade st rect rules).clip =
      (rules.findSome? fun r => (ruleGetValue st rect r "clip_overflow").bind convBool).getD false := by
  unfold cascade
  rw [cascade_foldl_clip]
  rfl

theorem computeObj_vars (st : StylesT) (anc : List MNode) (pobj : Option RenderObject)
    (self : MNode) (txt : Option String) :
    (computeObj st anc pobj self txt).vars =
      (cascade st (parentRectOf pobj) (findMatchingRules st self anc)).vars := by
  cases pobj <;> rfl

theorem computeObj_scroll (st : StylesT) (anc : List MNode) (pobj : Option RenderObject)
    (self : MNode) (txt : Option String) :
    (computeObj st anc pobj self txt).scrollPosition =
      (cascade st (parentRectOf pobj) (findMatchingRules st self anc)).scroll := by
  cases pobj <;> rfl

theorem computeObj_clip (st : StylesT) (anc : List MNode) (pobj : Option RenderObject)
    (self : MNode) (txt : Option String) :
    (computeObj st anc pobj self txt).clipOverflow =
      (cascade st (parentRectOf pobj) (findMatchingRules st self anc)).clip := by
  cases pobj <;> rfl

/-! Lemmas supporting the layout-idempotence claim: a layout pass leaves
no dirty flag behind in any subtree it was allowed to touch. -/

theorem checkDirtyList_eq_false_iff (cs : List NodeT) :
    checkDirtyList cs = false ↔ ∀ c ∈ cs, checkDirty c = false := by
  induction cs with
  | nil => simp [checkDirtyList]
  | cons c cs ih =>
    simp [checkDirtyList, Bool.or_eq_false_iff, ih]

theorem clearObj_obj (c : NodeT) : (clearObj c).obj = none := by
  cases c <;> rfl

theorem clearObj_checkDirty (c : NodeT) : checkDirty (clearObj c) = checkDirty c := by
  cases c <;> rfl

theorem map_clear_eq_self (cs : List NodeT) (h : ∀ c ∈ cs, checkDirty c = false) :
    cs.map (fun c => if checkDirty c then clearObj c else c) = cs := by
  induction cs with
  | nil => rfl
  | cons c cs ih =>
    simp only [List.map_cons, h c (List.mem_cons_self c cs), if_false, Bool.false_eq_true]
    rw [ih fun c hc => h c (List.mem_cons_of_mem _ hc)]

theorem layoutChildren_nil (st : StylesT) (anc : List MNode) (pobj : Option RenderObject)
    (force : Bool) : layoutChildren st anc pobj force [] = [] := by
  rw [layoutChildren.eq_def]

theorem layoutChildren_cons (st : StylesT) (anc : List MNode) (pobj : Option RenderObject)
    (force : Bool) (c : NodeT) (cs : List NodeT) :
    layoutChildren st anc pobj force (c :: cs) =
      layoutNode st anc pobj force c :: layoutChildren st anc pobj force cs := by
  rw [layoutChildren.eq_def]

theorem layoutNode_text_rebuild (st : StylesT) (anc : List MNode) (pobj : Option RenderObject)
    (force : Bool) (s : String) (props : Props) (d : Bool) (obj : Option RenderObject)
    (h : (obj.isNone || force) = true) :
    layoutNode st anc pobj force (.text s props d obj) =
      .text s props false (some (computeObj st anc pobj ⟨true, "", props⟩ (some s))) := by
  rw [layoutNode.eq_def]
  simp [h]

theorem layoutNode_text_skip (st : StylesT) (anc : List MNode) (pobj : Option RenderObject)
    (s : String) (props : Props) (d : Bool) (o : RenderObject) :
    layoutNode st anc pobj false (.text s props d (some o)) = .text s props d (some o) := by
  rw [layoutNode.eq_def]
  simp

theorem layoutNode_elem_rebuild (st : StylesT) (anc : List MNode) (pobj : Option RenderObject)
    (force : Bool) (name : String) (props : Props) (d : Bool) (obj : Option RenderObject)
    (cs : List NodeT) (h : (force || obj.isNone) = true) :
    layoutNode st anc pobj force (.elem name props d obj cs) =
      .elem name props false
        (some (finalizeLayout (computeObj st anc pobj ⟨false, name, props⟩ none)
          ((layoutChildren st (⟨false, name, props⟩ :: anc)
            (some (computeObj st anc pobj ⟨false, name, props⟩ none)) true cs).filterMap NodeT.obj)))
        (layoutChildren st (⟨false, name, props⟩ :: anc)
          (some (computeObj st anc pobj ⟨false, name, props⟩ none)) true cs) := by
  rw [layoutNode.eq_def]
  rcases Bool.or_eq_true_iff.mp h with hf | hn
  · cases obj <;> simp [hf, h]
  · cases obj with
    | none => simp [h]
    | some o => simp at hn
  
theorem layoutNode_elem_skip (st : StylesT) (anc : List MNode) (pobj : Option RenderObject)
    (name : String) (props : Props) (d : Bool) (o : RenderObject) (cs : List NodeT) :
    layoutNode st anc pobj false (.elem name props d (some o) cs) =
      .elem name props d (some o)
        (layoutChildren st (⟨false, name, props⟩ :: anc) (some o) false cs) := by
  rw [layoutNode.eq_def]
  simp

theorem layout_clean_main : ∀ k : Nat,
    (∀ (st : StylesT) (anc : List MNode) (pobj : Option RenderObject) (force : Bool) (n : NodeT),
      sizeOf n ≤ k →
      (force = true ∨ n.obj = none ∨ checkDirty n = false) →
      checkDirty (layoutNode st anc pobj force n) = false) ∧
    (∀ (st : StylesT) (anc : List MNode) (pobj : Option RenderObject) (force : Bool) (cs : List NodeT),
      sizeOf cs ≤ k →
      (∀ c ∈ cs, force = true ∨ NodeT.obj c = none ∨ checkDirty c = false) →
      checkDirtyList (layoutChildren st anc pobj force cs) = false) := by
  intro k
  induction k using Nat.strong_induction_on with
  | _ k ih =>
    constructor
    · intro st anc pobj force n hsz hdisj
      cases n with
      | text s props d obj =>
        cases obj with
        | none =>
          rw [layoutNode_text_rebuild st anc pobj force s props d none (by simp)]
          rfl
        | some o =>
          cases force with
          | true =>
            rw [layoutNode_text_rebuild st anc pobj true s props d (some o) (by simp)]
            rfl
          | false =>
            rw [layoutNode_text_skip]
            rcases hdisj with hf | ho | hd
            · exact absurd hf (by simp)
            · exact absurd ho (by simp [NodeT.obj])
            · exact hd
      | elem name props d obj cs =>
        have hszcs : sizeOf cs < k := by
          have h1 : sizeOf cs < sizeOf (NodeT.elem name props d obj cs) := by
            simp only [NodeT.elem.sizeOf_spec]
            omega
          omega
        have hrebuild : (force || obj.isNone) = true →
            checkDirty (layoutNode st anc pobj force (.elem name props d obj cs)) = false := by
          intro h
          rw [layoutNode_elem_rebuild st anc pobj force name props d obj cs h]
          simp only [checkDirty, Bool.false_or]
          exact (ih (sizeOf cs) hszcs).2 st (⟨false, name, props⟩ :: anc)
            (some (computeObj st anc pobj ⟨false, name, props⟩ none)) true cs le_rfl
            (fun c _ => Or.inl rfl)
        cases obj with
        | none => exact hrebuild (by simp)
        | some o =>
          cases force with
          | true => exact hrebuild (by simp)
          | false =>
            rw [layoutNode_elem_skip]
            have hcd : checkDirty (NodeT.elem name props d (some o) cs) = false := by
              rcases hdisj with hf | ho | hd
              · exact absurd hf (by simp)
              · exact absurd ho (by simp [NodeT.obj])
              · exact hd
            simp only [checkDirty, Bool.or_eq_false_iff] at hcd
            simp only [checkDirty, Bool.or_eq_false_iff]
            refine ⟨hcd.1, ?_⟩
            exact (ih (sizeOf cs) hszcs).2 st (⟨false, name, props⟩ :: anc) (some o) false cs le_rfl
              (fun c hc => Or.inr (Or.inr ((checkDirtyList_eq_false_iff cs).mp hcd.2 c hc)))
    · intro st anc pobj force cs hsz hall
      cases cs with
      | nil =>
        rw [layoutChildren_nil]
        rfl
      | cons c cs =>
        rw [layoutChildren_cons]
        simp only [checkDirtyList, Bool.or_eq_false_iff]
        have hszc : sizeOf c < k := by
          have : sizeOf c < sizeOf (c :: cs) := by
            simp only [List.cons.sizeOf_spec]
            omega
          omega
        have hszcs : sizeOf cs < k := by
          have : sizeOf cs < sizeOf (c :: cs) := by
            simp only [List.cons.sizeOf_spec]
            omega
          omega
        exact ⟨(ih (sizeOf c) hszc).1 st anc pobj force c le_rfl (hall c (List.mem_cons_self c cs)),
          (ih (sizeOf cs) hszcs).2 st anc pobj force cs le_rfl
            (fun x hx => hall x (List.mem_cons_of_mem _ hx))⟩

theorem layoutNode_clean (st : StylesT) (anc : List MNode) (pobj : Option RenderObject)
    (force : Bool) (n : NodeT)
    (h : force = true ∨ n.obj = none ∨ checkDirty n = false) :
    checkDirty (layoutNode st anc pobj force n) = false :=
  (layout_clean_main (sizeOf n)).1 st anc pobj force n le_rfl h

theorem layoutChildren_clean (st : StylesT) (anc : List MNode) (pobj : Option RenderObject)
    (force : Bool) (cs : List NodeT)
    (h : ∀ c ∈ cs, force = true ∨ NodeT.obj c = none ∨ checkDirty c = false) :
    checkDirtyList (layoutChildren st anc pobj force cs) = false :=
  (layout_clean_main (sizeOf cs)).2 st anc pobj force cs le_rfl h

theorem layoutChildren_clear_clean (st : StylesT) (anc : List MNode) (pobj : Option RenderObject)
    (force : Bool) (cs : List NodeT) :
    checkDirtyList (layoutChildren st anc pobj force
      (cs.map fun c => if checkDirty c then clearObj c else c)) = false := by
  apply layoutChildren_clean
  intro c' hc'
  rcases List.mem_map.mp hc' with ⟨c, hc, rfl⟩
  by_cases hcd : checkDirty c
  · simp only [hcd, if_pos]
    exact Or.inr (Or.inl (clearObj_obj c))
  · rw [if_neg hcd]
    exact Or.inr (Or.inr (by simpa using hcd))

theorem checkDirtyList_map_clear (cs : List NodeT) :
    checkDirtyList (cs.map fun c => if checkDirty c then clearObj c else c) = checkDirtyList cs := by
  induction cs with
  | nil => rfl
  | cons c cs ih =>
    simp only [List.map_cons, checkDirtyList, ih]
    by_cases hcd : checkDirty c
    · rw [if_pos hcd, clearObj_checkDirty]
    · rw [if_neg hcd]

theorem insertA_wh_idem (ps : Props) (vw vh : Value) :
    insertA (insertA (insertA (insertA ps "width" vw) "height" vh) "width" vw) "height" vh
      = insertA (insertA ps "width" vw) "height" vh := by
  have h1 : lookupA (insertA (insertA ps "width" vw) "height" vh) "width" = some vw := by
    rw [lookupA_insertA_ne _ _ _ _ (by decide : ("height" : String) ≠ "width"),
      lookupA_insertA_self]
  rw [insertA_lookup_eq _ _ _ h1,
    insertA_lookup_eq _ _ _ (lookupA_insertA_self _ _ _)]

theorem managerLayout_text (s : String) (props : Props) (d : Bool) (obj : Option RenderObject)
    (ls : Int × Int) (dty : Bool) (sty : StylesT) (w h : Int) :
    managerLayout ⟨.text s props d obj, ls, dty, sty⟩ w h =
      (⟨.text s (insertA (insertA props "width" (.integer w)) "height" (.integer h)) true
          (some { defaultRenderObject with drawRect := ⟨0, 0, w, h⟩ }),
        (w, h), false, sty⟩, false) := rfl

theorem managerLayout_elem (name : String) (props : Props) (d : Bool)
    (obj : Option RenderObject) (cs : List NodeT)
    (ls : Int × Int) (dty : Bool) (sty : StylesT) (w h : Int) :
    managerLayout ⟨.elem name props d obj cs, ls, dty, sty⟩ w h =
      (⟨.elem name (insertA (insertA props "width" (.integer w)) "height" (.integer h)) true
          (some { defaultRenderObject with drawRect := ⟨0, 0, w, h⟩ })
          (if ((decide (ls ≠ (w, h)) || dty) || checkDirtyList cs)
            then layoutChildren sty
              [⟨false, name, insertA (insertA props "width" (.integer w)) "height" (.integer h)⟩]
              (some { defaultRenderObject with drawRect := ⟨0, 0, w, h⟩ })
              (decide (ls ≠ (w, h)) || dty)
              (cs.map fun c => if checkDirty c then clearObj c else c)
            else (cs.map fun c => if checkDirty c then clearObj c else c)),
        (w, h), false, sty⟩,
       ((decide (ls ≠ (w, h)) || dty) || checkDirtyList cs)) := rfl

theorem managerLayout_idem (m : Manager) (w h : Int) :
    managerLayout (managerLayout m w h).1 w h = ((managerLayout m w h).1, false) := by
  obtain ⟨root, ls, dty, sty⟩ := m
  have hforce2 : (decide (((w, h) : Int × Int) ≠ (w, h)) || false) = false := by simp
  cases root with
  | text s props d obj =>
    rw [managerLayout_text]
    dsimp only
    rw [managerLayout_text, insertA_wh_idem]
  | elem name props d obj cs =>
    rw [managerLayout_elem]
    dsimp only
    rw [managerLayout_elem]
    have hclean : checkDirtyList
        (if ((decide (ls ≠ (w, h)) || dty) || checkDirtyList cs)
          then layoutChildren sty
            [⟨false, name, insertA (insertA props "width" (.integer w)) "height" (.integer h)⟩]
            (some { defaultRenderObject with drawRect := ⟨0, 0, w, h⟩ })
            (decide (ls ≠ (w, h)) || dty)
            (cs.map fun c => if checkDirty c then clearObj c else c)
          else (cs.map fun c => if checkDirty c then clearObj c else c)) = false := by
      by_cases hcond : (((decide (ls ≠ (w, h)) || dty) || checkDirtyList cs) = true)
      · rw [if_pos hcond]
        exact layoutChildren_clear_clean _ _ _ _ _
      · rw [if_neg hcond]
        rw [checkDirtyList_map_clear]
        simp only [Bool.or_eq_true, not_or, Bool.not_eq_true] at hcond
        exact hcond.2
    rw [insertA_wh_idem]
    simp only [hclean, hforce2, Bool.or_false, Bool.false_or, if_neg, Bool.false_eq_true,
      not_false_eq_true, if_false]
    rw [map_clear_eq_self _ ((checkDirtyList_eq_false_iff _).mp hclean)]

theorem hget_hset_self (h : Heap) (i : Nat) (r : NodeRec) (hh : (hget h i).isSome) :
    hget (hset h i r) i = some r := by
  induction h with
  | nil => simp [hget] at hh
  | cons hd tl ih =>
    obtain ⟨a, b⟩ := hd
    by_cases he : a = i
    · simp [hset, hget, he]
    · simp only [hget, he, if_neg, if_false] at hh
      simp only [hset, he, if_neg, if_false, hget]
      exact ih hh

theorem hget_hset_ne (h : Heap) (i j : Nat) (r : NodeRec) (hij : i ≠ j) :
    hget (hset h i r) j = hget h j := by
  induction h with
  | nil => rfl
  | cons hd tl ih =>
    obtain ⟨a, b⟩ := hd
    by_cases he : a = i
    · subst he
      simp [hset, hget, hij]
    · simp [hset, hget, he, ih]

/-! Concrete fixtures used by counterexamples and witnesses. -/

/-- A throwaway source position. -/
def p0 : Position := ⟨0, 0⟩

/-- The zero rectangle. -/
def rect0 : Rect := ⟨0, 0, 0, 0⟩

/-- A style state with no documents and no registered functions. -/
def st0 : StylesT := ⟨[], []⟩

/-- A two-node heap: element 0 with single child 1, the child's weak
parent link pointing back at 0. -/
def hC1 : Heap := [(0, ⟨none, true, [1], false⟩), (1, ⟨some 0, true, [], false⟩)]

/-- The heap `hC1` after `removeChild hC1 0 1`: the child list of node 0
is empty and node 0 is dirty, but node 1 still carries `parent = some 0`. -/
def hC1' : Heap := [(0, ⟨none, true, [], true⟩), (1, ⟨some 0, true, [], false⟩)]

/-! ### Claim C1 -/

/-- Claim C1, counterexample: the claim says that after
`P.remove_child(N)` the node N "has no parent" because the weak parent
link is detached.  On the concrete two-node heap the source's
`remove_child` leaves the child's parent link pointing at P (`some 0`,
not `none`), and a subsequent `add_child` of N panics on the
"Node already has a parent" assertion (modelled as `none`). -/
theorem c1_remove_child_counterexample :
    removeChild hC1 0 1 = some hC1' ∧
    (hget hC1' 1).map NodeRec.parent = some (some 0) ∧
    (hget hC1' 1).map NodeRec.parent ≠ some none ∧
    addChild hC1' 0 1 = none := by
  decide

/-- Claim C1, amended: after a successful `remove_child`, the parent's
children list no longer contains the child and the parent is marked
dirty, but the child's weak parent link is NOT detached — it still points
at the parent — so a subsequent `add_child` of the child to any node
panics on the no-parent assertion. -/
theorem c1_remove_child_amended (h h' : Heap) (p c : Nat)
    (hr : removeChild h p c = some h') :
    (∀ r, hget h' p = some r → c ∉ r.childIds ∧ r.dirty = true) ∧
    (hget h' c).map NodeRec.parent = some (some p) ∧
    (∀ x, addChild h' x c = none) := by
  unfold removeChild at hr
  cases hch : hget h c with
  | none => rw [hch] at hr; exact absurd hr (by simp)
  | some ch =>
    rw [hch] at hr
    dsimp only at hr
    cases hpp : ch.parent with
    | none => rw [hpp] at hr; exact absurd hr (by simp)
    | some q =>
      rw [hpp] at hr
      dsimp only at hr
      by_cases hq : (hget h q).isSome
      · rw [if_pos hq] at hr
        by_cases hqp : q = p
        · subst hqp
          rw [if_pos rfl] at hr
          cases hsr : hget h q with
          | none => rw [hsr] at hr; exact absurd hr (by simp)
          | some sr =>
            rw [hsr] at hr
            dsimp only at hr
            by_cases hel : sr.isElement
            · rw [if_pos hel] at hr
              have hh' : h' = hset h q
                  { sr with childIds := sr.childIds.filter (fun i => i ≠ c), dirty := true } := by
                injection hr with hr
                exact hr.symm
              subst hh'
              have hcr : ∃ cr, hget (hset h q
                  { sr with childIds := sr.childIds.filter (fun i => i ≠ c), dirty := true }) c
                    = some cr ∧ cr.parent = some q := by
                by_cases hcp : c = q
                · subst hcp
                  rw [hget_hset_self h c _ (by simp [hsr])]
                  refine ⟨_, rfl, ?_⟩
                  have hcs : ch = sr := Option.some.inj (hch.symm.trans hsr)
                  simp [← hcs, hpp]
                · rw [hget_hset_ne h q c _ (fun he => hcp he.symm), hch]
                  exact ⟨ch, rfl, hpp⟩
              rcases hcr with ⟨cr, hc1, hc2⟩
              refine ⟨?_, ?_, ?_⟩
              · intro r hrp
                rw [hget_hset_self h q _ (by simp [hsr])] at hrp
                injection hrp with hrp
                subst hrp
                refine ⟨?_, rfl⟩
                intro hmem
                simp only [List.mem_filter] at hmem
                simp at hmem
              · rw [hc1]
                simp [hc2]
              · intro x
                unfold addChild
                rw [hc1]
                simp [hc2]
            · rw [if_neg hel] at hr
              exact absurd hr (by simp)
        · rw [if_neg hqp] at hr
          exact absurd hr (by simp)
      · rw [if_neg hq] at hr
        exact absurd hr (by simp)

/-- Claim C1, witness: the amended theorem applied to the concrete
two-node heap. -/
theorem c1_remove_child_witness :
    ((1 : Nat) ∉ NodeRec.childIds ⟨none, true, [], true⟩ ∧
      NodeRec.dirty ⟨none, true, [], true⟩ = true) ∧
    (hget hC1' 1).map NodeRec.parent = some (some 0) ∧
    addChild hC1' 5 1 = none := by
  have hmain := c1_remove_child_amended hC1 hC1' 0 1 (by decide)
  exact ⟨hmain.1 ⟨none, true, [], true⟩ (by decide), hmain.2.1, hmain.2.2 5⟩

/-! ### Claim C2 -/

/-- A manager whose size matches the previous layout call and whose own
dirty flag is clear, but which holds a dirty child node. -/
def mC2 : Manager :=
  { root := .elem "root" [] false (some defaultRenderObject) [nodeNew "panel"]
    lastSize := (5, 5)
    dirty := false
    styles := st0 }

/-- Claim C2, counterexample: the claim says `force_dirty` is true
whenever some node anywhere in the tree is dirty.  On `mC2` — same size
as the previous call, manager flag clear, but a dirty child in the tree —
the source computes `force_dirty = false` even though the tree contains a
dirty node, so the claimed equivalence fails. -/
theorem c2_force_dirty_counterexample :
    managerForceDirty mC2 5 5 = false ∧
    mC2.lastSize = (5, 5) ∧
    checkDirty mC2.root = true := by
  decide

/-- Claim C2, amended: `force_dirty` is size-change OR the manager's own
dirty flag (set by `new`, `load_styles`, `remove_styles`, `remove_node`),
not a scan of tree dirty flags; tree dirty flags are instead detected by
the per-child `check_dirty` scan, which feeds the return value together
with `force_dirty`.  The call does reset the manager's dirty flag. -/
theorem c2_force_dirty_amended (m : Manager) (w h : Int) (hroot : m.root.isElem = true) :
    managerForceDirty m w h = (decide (m.lastSize ≠ (w, h)) || m.dirty) ∧
    (managerLayout m w h).1.dirty = false ∧
    (managerLayout m w h).2 = (managerForceDirty m w h || checkDirtyList m.root.childrenOf) := by
  obtain ⟨root, ls, dty, sty⟩ := m
  cases root with
  | text s props d obj => exact absurd hroot (by simp [NodeT.isElem])
  | elem name props d obj cs =>
    refine ⟨rfl, ?_, ?_⟩
    · rw [managerLayout_elem]
    · rw [managerLayout_elem]
      rfl

/-- Claim C2, witness: the amended theorem applied to the fresh manager. -/
theorem c2_force_dirty_witness :
    managerForceDirty managerNew 800 600 =
      (decide (managerNew.lastSize ≠ (800, 600)) || managerNew.dirty) ∧
    (managerLayout managerNew 800 600).1.dirty = false ∧
    (managerLayout managerNew 800 600).2 =
      (managerForceDirty managerNew 800 600 || checkDirtyList managerNew.root.childrenOf) :=
  c2_force_dirty_amended managerNew 800 600 rfl

/-! ### Claim C5 -/

/-- Claim C5: layout is idempotent.  For every manager state and size,
running `Manager::layout(w,h)` twice in a row (no intervening mutation)
leaves the entire manager — in particular the render object of every node
— exactly as after the first call, and the second call returns `false`;
on a freshly created empty manager the first `layout(800,600)` returns
`true` and the second returns `false`. -/
theorem c5_layout_idempotent :
    (∀ (m : Manager) (w h : Int),
      managerLayout (managerLayout m w h).1 w h = ((managerLayout m w h).1, false)) ∧
    (managerLayout managerNew 800 600).2 = true ∧
    (managerLayout (managerLayout managerNew 800 600).1 800 600).2 = false := by
  refine ⟨managerLayout_idem, by decide, ?_⟩
  rw [managerLayout_idem]

/-! ### Claim C10 -/

/-- Claim C10: `raw_position` is total — a node that has never been laid
out (no cached render object) yields the zero rectangle instead of
failing. -/
theorem c10_raw_position_total (n : NodeT) (h : n.obj = none) :
    rawPosition n = ⟨0, 0, 0, 0⟩ := by
  simp [rawPosition, h]

/-- Claim C10, witness: a freshly created element node has no render
object, and its raw position is the zero rectangle. -/
theorem c10_raw_position_witness : rawPosition (nodeNew "panel") = ⟨0, 0, 0, 0⟩ :=
  c10_raw_position_total (nodeNew "panel") rfl

/-! ### Claim C4 -/

/-- The child render object of the clip-and-scroll scenario: laid out at
`y = 40` with height `20` (width 30 at x 0). -/
def childC4 : RenderObject :=
  { defaultRenderObject with drawRect := ⟨0, 40, 30, 20⟩ }

/-- The parent render object of the clip-and-scroll scenario: positioned
at `(px, py)` with size `100 × 100`, `clip_overflow = true` and vertical
scroll offset `sy`. -/
def parentC4 (px py : Int) (sy : ℚ) : RenderObject :=
  { defaultRenderObject with
    drawRect := ⟨px, py, 100, 100⟩
    scrollPosition := (0, sy)
    clipOverflow := true }

/-- Claim C4, counterexample: with the parent at the origin,
`scroll_y = 50`, child at `y = 40`, `h = 20`, parent `h = 100`, the claim
predicts the rectangle `(0, 0 + (40 - 50), 30, 20)` clipped upward to
`y = 0` with height `10`, i.e. `(0, 0, 30, 10)`.  The source instead ADDS
the scroll offset — `render_position` yields `(0, 90, 30, 10)`, clipped at
the bottom edge, which differs from the claimed rectangle. -/
theorem c4_clip_scroll_counterexample :
    renderPositionFrom (some childC4) [some (parentC4 0 0 50)] = some ⟨0, 90, 30, 10⟩ ∧
    (some (⟨0, 90, 30, 10⟩ : Rect) ≠ some (⟨0, 0, 30, 10⟩ : Rect)) := by
  decide

/-- Claim C4, amended: `render_position` adds each ancestor's scroll
offset to the child rectangle.  With `scroll_y = 50` the child at
`y = 40`, `h = 20` inside the clipping parent of height `100` at
`(px, py)` lands at `y = py + 90` with its height cropped at the parent's
bottom edge to `10`; the behaviour the claim describes — `y = py + (40 - 50)`
clipped upward to `py` with height reduced by `10` — is what the source
produces for `scroll_y = -50`. -/
theorem c4_clip_scroll_amended (px py : Int) :
    renderPositionFrom (some childC4) [some (parentC4 px py 50)] = some ⟨px, py + 90, 30, 10⟩ ∧
    renderPositionFrom (some childC4) [some (parentC4 px py (-50))] = some ⟨px, py, 30, 10⟩ := by
  have hceil : (⌈(-50 : ℚ)⌉ : Int) = -50 := by
    rw [show ((-50 : ℚ)) = ((-50 : Int) : ℚ) by norm_num, Int.ceil_intCast]
  have hfloor : (⌊(50 : ℚ)⌋ : Int) = 50 := by
    rw [show ((50 : ℚ)) = ((50 : Int) : ℚ) by norm_num, Int.floor_intCast]
  refine ⟨?_, ?_⟩ <;>
  · simp only [renderPositionFrom, renderPositionWalk, rpStep, childC4, parentC4,
      defaultRenderObject, truncQ, hceil, hfloor]
    norm_num
    try omega

/-! ### Claim C9 -/

/-- Whether a runtime value is numeric with its integer payload inside the
`i32` range — the invariant every `Value::Integer` of the program
satisfies, since its payload is a Rust `i32`. -/
def numericI32 : Value → Prop
  | .integer n => -2 ^ 31 ≤ n ∧ n < 2 ^ 31
  | .float _ => True
  | _ => False

/-- Claim C9: for every numeric value (an in-range integer or a float),
double negation in the expression evaluator succeeds and returns the
value unchanged. -/
theorem c9_double_neg (st : StylesT) (vars : Props) (rect : Rect) (e : Expr)
    (pos1 pos2 : Position) (x : Value)
    (hx : evalExpr st vars rect e = .ok x) (hnum : numericI32 x) :
    evalExpr st vars rect (.neg (.neg e pos1) pos2) = .ok x := by
  cases x with
  | integer n =>
    obtain ⟨h1, h2⟩ := hnum
    rw [evalExpr.eq_def]
    dsimp only
    rw [evalExpr.eq_def]
    dsimp only
    rw [hx]
    dsimp only
    rw [wrap32_neg_neg n h1 h2]
  | float q =>
    rw [evalExpr.eq_def]
    dsimp only
    rw [evalExpr.eq_def]
    dsimp only
    rw [hx]
    dsimp only
    rw [neg_neg]
  | boolean b => exact absurd hnum (by simp [numericI32])
  | string s => exact absurd hnum (by simp [numericI32])
  | anyv k => exact absurd hnum (by simp [numericI32])

/-- Claim C9, witness: double negation of the integer literal 5. -/
theorem c9_double_neg_witness :
    evalExpr st0 [] rect0 (.neg (.neg (.value (.integer 5) p0) p0) p0) = .ok (.integer 5) :=
  c9_double_neg st0 [] rect0 (.value (.integer 5) p0) p0 p0 (.integer 5) rfl
    (by constructor <;> norm_num [numericI32])

/-! ### Claim C8 -/

/-- Whether a runtime value is numeric (integer or float). -/
def isNum : Value → Bool
  | .integer _ => true
  | .float _ => true
  | _ => false

/-- Whether a runtime value is a string. -/
def isStr : Value → Bool
  | .string _ => true
  | _ => false

/-- The operand dispatch of `Rule::eval` for `Expr::Add`, extracted as a
function of the two evaluated operand values. -/
def addVals (va vb : Value) (pos : Position) : Except ErrorKind Value :=
  match va, vb with
  | .float a, .float b => .ok (.float (a + b))
  | .integer a, .integer b => .ok (.integer (wrap32 (a + b)))
  | .float a, .integer b => .ok (.float (a + (b : ℚ)))
  | .integer a, .float b => .ok (.float ((a : ℚ) + b))
  | .string a, .string b => .ok (.string (a ++ b))
  | _, _ => .error (.cantOp "add" pos)

/-- The operand dispatch of `Rule::eval` for `Expr::Sub`. -/
def subVals (va vb : Value) (pos : Position) : Except ErrorKind Value :=
  match va, vb with
  | .float a, .float b => .ok (.float (a - b))
  | .integer a, .integer b => .ok (.integer (wrap32 (a - b)))
  | .float a, .integer b => .ok (.float (a - (b : ℚ)))
  | .integer a, .float b => .ok (.float ((a : ℚ) - b))
  | _, _ => .error (.cantOp "subtract" pos)

/-- The operand dispatch of `Rule::eval` for `Expr::Mul`. -/
def mulVals (va vb : Value) (pos : Position) : Except ErrorKind Value :=
  match va, vb with
  | .float a, .float b => .ok (.float (a * b))
  | .integer a, .integer b => .ok (.integer (wrap32 (a * b)))
  | .float a, .integer b => .ok (.float (a * (b : ℚ)))
  | .integer a, .float b => .ok (.float ((a : ℚ) * b))
  | _, _ => .error (.cantOp "multiply" pos)

/-- The operand dispatch of `Rule::eval` for `Expr::Div`.  Note that the
integer-by-integer case promotes both operands and divides as floats, with
no zero check. -/
def divVals (va vb : Value) (pos : Position) : Except ErrorKind Value :=
  match va, vb with
  | .float a, .float b => .ok (.float (a / b))
  | .integer a, .integer b => .ok (.float ((a : ℚ) / (b : ℚ)))
  | .float a, .integer b => .ok (.float (a / (b : ℚ)))
  | .integer a, .float b => .ok (.float ((a : ℚ) / b))
  | _, _ => .error (.cantOp "divide" pos)

theorem evalExpr_add_eq (st : StylesT) (vars : Props) (rect : Rect) (el er : Expr)
    (pos : Position) (va vb : Value)
    (hl : evalExpr st vars rect el = .ok va) (hr : evalExpr st vars rect er = .ok vb) :
    evalExpr st vars rect (.add el er pos) = addVals va vb pos := by
  rw [evalExpr.eq_def]
  dsimp only
  rw [hl]
  dsimp only
  rw [hr]
  rfl

theorem evalExpr_sub_eq (st : StylesT) (vars : Props) (rect : Rect) (el er : Expr)
    (pos : Position) (va vb : Value)
    (hl : evalExpr st vars rect el = .ok va) (hr : evalExpr st vars rect er = .ok vb) :
    evalExpr st vars rect (.sub el er pos) = subVals va vb pos := by
  rw [evalExpr.eq_def]
  dsimp only
  rw [hl]
  dsimp only
  rw [hr]
  rfl

theorem evalExpr_mul_eq (st : StylesT) (vars : Props) (rect : Rect) (el er : Expr)
    (pos : Position) (va vb : Value)
    (hl : evalExpr st vars rect el = .ok va) (hr : evalExpr st vars rect er = .ok vb) :
    evalExpr st vars rect (.mul el er pos) = mulVals va vb pos := by
  rw [evalExpr.eq_def]
  dsimp only
  rw [hl]
  dsimp only
  rw [hr]
  rfl

theorem evalExpr_div_eq (st : StylesT) (vars : Props) (rect : Rect) (el er : Expr)
    (pos : Position) (va vb : Value)
    (hl : evalExpr st vars rect el = .ok va) (hr : evalExpr st vars rect er = .ok vb) :
    evalExpr st vars rect (.div el er pos) = divVals va vb pos := by
  rw [evalExpr.eq_def]
  dsimp only
  rw [hl]
  dsimp only
  rw [hr]
  rfl

/-- Claim C8: the operator semantics of the expression evaluator.
Integer `+`/`-`/`*` stay integer (with `i32` wrap-around); any float
operand widens the result to float; `+` on two strings concatenates;
`/` on two integers always produces a float and never reports an error,
including for a zero denominator (the `b = 0` instance of the first
conjunct, where the rational model returns `Float 0` in place of the
IEEE infinity or NaN of the source); every other operand combination
fails with the operator's `CantOp` error carrying the expression's
position. -/
theorem c8_operator_semantics (st : StylesT) (vars : Props) (rect : Rect) (el er : Expr)
    (pos : Position) (va vb : Value)
    (hl : evalExpr st vars rect el = .ok va) (hr : evalExpr st vars rect er = .ok vb) :
    (∀ a b, va = .integer a → vb = .integer b →
      evalExpr st vars rect (.add el er pos) = .ok (.integer (wrap32 (a + b))) ∧
      evalExpr st vars rect (.sub el er pos) = .ok (.integer (wrap32 (a - b))) ∧
      evalExpr st vars rect (.mul el er pos) = .ok (.integer (wrap32 (a * b))) ∧
      evalExpr st vars rect (.div el er pos) = .ok (.float ((a : ℚ) / (b : ℚ)))) ∧
    (∀ a b, va = .float a → vb = .float b →
      evalExpr st vars rect (.add el er pos) = .ok (.float (a + b)) ∧
      evalExpr st vars rect (.sub el er pos) = .ok (.float (a - b)) ∧
      evalExpr st vars rect (.mul el er pos) = .ok (.float (a * b)) ∧
      evalExpr st vars rect (.div el er pos) = .ok (.float (a / b))) ∧
    (∀ a b, va = .float a → vb = .integer b →
      evalExpr st vars rect (.add el er pos) = .ok (.float (a + (b : ℚ))) ∧
      evalExpr st vars rect (.sub el er pos) = .ok (.float (a - (b : ℚ))) ∧
      evalExpr st vars rect (.mul el er pos) = .ok (.float (a * (b : ℚ))) ∧
      evalExpr st vars rect (.div el er pos) = .ok (.float (a / (b : ℚ)))) ∧
    (∀ a b, va = .integer a → vb = .float b →
      evalExpr st vars rect (.add el er pos) = .ok (.float ((a : ℚ) + b)) ∧
      evalExpr st vars rect (.sub el er pos) = .ok (.float ((a : ℚ) - b)) ∧
      evalExpr st vars rect (.mul el er pos) = .ok (.float ((a : ℚ) * b)) ∧
      evalExpr st vars rect (.div el er pos) = .ok (.float ((a : ℚ) / b))) ∧
    (∀ s t, va = .string s → vb = .string t →
      evalExpr st vars rect (.add el er pos) = .ok (.string (s ++ t))) ∧
    ((isNum va && isNum vb) = false → (isStr va && isStr vb) = false →
      evalExpr st vars rect (.add el er pos) = .error (.cantOp "add" pos)) ∧
    ((isNum va && isNum vb) = false →
      evalExpr st vars rect (.sub el er pos) = .error (.cantOp "subtract" pos) ∧
      evalExpr st vars rect (.mul el er pos) = .error (.cantOp "multiply" pos) ∧
      evalExpr st vars rect (.div el er pos) = .error (.cantOp "divide" pos)) := by
  have hadd := evalExpr_add_eq st vars rect el er pos va vb hl hr
  have hsub := evalExpr_sub_eq st vars rect el er pos va vb hl hr
  have hmul := evalExpr_mul_eq st vars rect el er pos va vb hl hr
  have hdiv := evalExpr_div_eq st vars rect el er pos va vb hl hr
  refine ⟨?_, ?_, ?_, ?_, ?_, ?_, ?_⟩
  · rintro a b rfl rfl
    exact ⟨by rw [hadd]; rfl, by rw [hsub]; rfl, by rw [hmul]; rfl, by rw [hdiv]; rfl⟩
  · rintro a b rfl rfl
    exact ⟨by rw [hadd]; rfl, by rw [hsub]; rfl, by rw [hmul]; rfl, by rw [hdiv]; rfl⟩
  · rintro a b rfl rfl
    exact ⟨by rw [hadd]; rfl, by rw [hsub]; rfl, by rw [hmul]; rfl, by rw [hdiv]; rfl⟩
  · rintro a b rfl rfl
    exact ⟨by rw [hadd]; rfl, by rw [hsub]; rfl, by rw [hmul]; rfl, by rw [hdiv]; rfl⟩
  · rintro s t rfl rfl
    rw [hadd]
    rfl
  · intro h1 h2
    rw [hadd]
    cases va <;> cases vb <;> simp_all [isNum, isStr, addVals]
  · intro h1
    rw [hsub, hmul, hdiv]
    cases va <;> cases vb <;> simp_all [isNum, subVals, mulVals, divVals]

/-- Claim C8, witness: integer addition stays integer (`7 + 2 = 9`), and
integer division by zero reports no error (it takes the float path). -/
theorem c8_operator_semantics_witness :
    evalExpr st0 [] rect0 (.add (.value (.integer 7) p0) (.value (.integer 2) p0) p0)
      = .ok (.integer 9) ∧
    evalExpr st0 [] rect0 (.div (.value (.integer 7) p0) (.value (.integer 0) p0) p0)
      = .ok (.float ((7 : ℚ) / (0 : ℚ))) := by
  constructor
  · have h := (c8_operator_semantics st0 [] rect0 (.value (.integer 7) p0)
      (.value (.integer 2) p0) p0 (.integer 7) (.integer 2) rfl rfl).1 7 2 rfl rfl
    rw [show wrap32 (7 + 2) = 9 by decide] at h
    exact h.1
  · exact ((c8_operator_semantics st0 [] rect0 (.value (.integer 7) p0)
      (.value (.integer 0) p0) p0 (.integer 7) (.integer 0) rfl rfl).1 7 0 rfl rfl).2.2.2

/-! ### Claim C3 -/

/-- Claim C3: which rule styles a property of a node.  The cascaded value
of every ordinary property equals the first-produced value over the
node's terminal-matcher bucket — built from ALL loaded documents in load
order, rules within a document in declaration order — iterated in REVERSE
(`List.reverse` below, so last-loaded document first and last-declared
rule first), keeping only rules whose matcher chain matches; `findSome?`
makes the first matching rule that produces a value win, and
later-visited (earlier-declared) rules unable to overwrite it. -/
theorem c3_cascade_order (st : StylesT) (self : MNode) (anc : List MNode) (rect : Rect)
    (p : String)
    (h1 : p ≠ "scroll_x") (h2 : p ≠ "scroll_y") (h3 : p ≠ "clip_overflow") :
    lookupA (cascade st rect (findMatchingRules st self anc)).vars p =
      ((st.styles.flatMap fun d =>
          d.2.filter fun r => terminalOf r = some (nodeKey self)).reverse).findSome?
        (fun r => (matchRule (self :: anc) r).bind fun vars =>
          ruleGetValue st rect ⟨r.styles, vars⟩ p) := by
  rw [lookupA_cascade_vars st rect _ p h1 h2 h3]
  unfold findMatchingRules rulesByBase
  rw [findSome?_filterMap]
  congr 1
  funext r
  cases matchRule (self :: anc) r <;> rfl

/-- A style document `A` declaring `width = 1` for `panel`. -/
def ruleA : SynRule := ⟨[(.element "panel", [])], [("width", .value (.integer 1) p0)]⟩

/-- A style document `B` declaring `width = 2` for `panel`. -/
def ruleB : SynRule := ⟨[(.element "panel", [])], [("width", .value (.integer 2) p0)]⟩

/-- Styles with document `A` loaded before document `B`. -/
def stC3 : StylesT := ⟨[("A", [ruleA]), ("B", [ruleB])], []⟩

/-- The matcher view of a parentless `panel` element. -/
def mnPanel : MNode := ⟨false, "panel", []⟩

/-- Claim C3, witness: with documents `A` (`width = 1`) then `B`
(`width = 2`) both styling `panel`, the cascade gives `width = 2` —
the last-loaded document wins. -/
theorem c3_cascade_order_witness :
    lookupA (cascade stC3 rect0 (findMatchingRules stC3 mnPanel [])).vars "width"
      = some (.integer 2) := by
  rw [c3_cascade_order stC3 mnPanel [] rect0 "width" (by decide) (by decide) (by decide)]
  decide

/-! ### Claim C6 -/

/-- Claim C6: the three reserved properties are applied to the render
object's fields and never inserted into its `vars` map, and each is
claimed by the FIRST matching rule that produces a (convertible) value
for it — the same first-wins precedence (`findSome?` over the matched
rules in application order) as ordinary properties. -/
theorem c6_reserved_props (st : StylesT) (anc : List MNode) (pobj : Option RenderObject)
    (self : MNode) (txt : Option String) :
    lookupA (computeObj st anc pobj self txt).vars "scroll_x" = none ∧
    lookupA (computeObj st anc pobj self txt).vars "scroll_y" = none ∧
    lookupA (computeObj st anc pobj self txt).vars "clip_overflow" = none ∧
    (computeObj st anc pobj self txt).scrollPosition.1 =
      ((findMatchingRules st self anc).findSome? fun r =>
        (ruleGetValue st (parentRectOf pobj) r "scroll_x").bind convF64).getD 0 ∧
    (computeObj st anc pobj self txt).scrollPosition.2 =
      ((findMatchingRules st self anc).findSome? fun r =>
        (ruleGetValue st (parentRectOf pobj) r "scroll_y").bind convF64).getD 0 ∧
    (computeObj st anc pobj self txt).clipOverflow =
      ((findMatchingRules st self anc).findSome? fun r =>
        (ruleGetValue st (parentRectOf pobj) r "clip_overflow").bind convBool).getD false := by
  refine ⟨?_, ?_, ?_, ?_, ?_, ?_⟩
  · rw [computeObj_vars]
    exact cascade_vars_reserved _ _ _ _ (Or.inl rfl)
  · rw [computeObj_vars]
    exact cascade_vars_reserved _ _ _ _ (Or.inr (Or.inl rfl))
  · rw [computeObj_vars]
    exact cascade_vars_reserved _ _ _ _ (Or.inr (Or.inr rfl))
  · rw [computeObj_scroll, cascade_scroll1]
  · rw [computeObj_scroll, cascade_scroll2]
  · rw [computeObj_clip, cascade_clip]

/-! ### Claim C7 -/

/-- Claim C7: a failed expression evaluation (unknown variable, unknown
function, operator type mismatch, or failed function call — any
`ErrorKind`) makes the failing rule contribute no value for that property
(first conjunct), leaves the cascaded result for that property exactly as
if the failing rule did not carry it (second conjunct), and leaves every
property's value given by the normal first-wins cascade over all rules
(third conjunct).  The cascade and the layout driver are total functions
of the embedding, so an evaluation error never aborts the layout pass. -/
theorem c7_eval_error_isolated (st : StylesT) (rect : Rect) (pre post : List CRule)
    (r : CRule) (p : String) (e : Expr) (err : ErrorKind)
    (h1 : p ≠ "scroll_x") (h2 : p ≠ "scroll_y") (h3 : p ≠ "clip_overflow")
    (hl : lookupA r.styles p = some e)
    (he : evalExpr st r.vars rect e = .error err) :
    ruleGetValue st rect r p = none ∧
    lookupA (cascade st rect (pre ++ r :: post)).vars p =
      lookupA (cascade st rect (pre ++ post)).vars p ∧
    (∀ q, q ≠ "scroll_x" → q ≠ "scroll_y" → q ≠ "clip_overflow" →
      lookupA (cascade st rect (pre ++ r :: post)).vars q =
        (pre ++ r :: post).findSome? fun r2 => ruleGetValue st rect r2 q) := by
  have hnone : ruleGetValue st rect r p = none := by
    unfold ruleGetValue
    rw [hl]
    dsimp only
    rw [he]
  refine ⟨hnone, ?_, ?_⟩
  · rw [lookupA_cascade_vars st rect _ p h1 h2 h3, lookupA_cascade_vars st rect _ p h1 h2 h3,
      findSome?_append, findSome?_append]
    simp only [List.findSome?_cons, hnone]
  · intro q hq1 hq2 hq3
    exact lookupA_cascade_vars st rect _ q hq1 hq2 hq3

/-- A matched rule whose `width` expression references an unknown
variable (evaluation fails) but whose `height` is a plain literal. -/
def ruleBad : CRule :=
  ⟨[("width", .value (.variable ⟨"nope", p0⟩) p0), ("height", .value (.integer 7) p0)], []⟩

/-- A matched rule declaring `width = 3`. -/
def ruleOk : CRule := ⟨[("width", .value (.integer 3) p0)], []⟩

/-- Claim C7, witness: the bad rule contributes no `width`, the next rule's
`width = 3` still applies, and the bad rule's own `height = 7` applies. -/
theorem c7_eval_error_witness :
    ruleGetValue st0 rect0 ruleBad "width" = none ∧
    lookupA (cascade st0 rect0 ([] ++ ruleBad :: [ruleOk])).vars "width" = some (.integer 3) ∧
    lookupA (cascade st0 rect0 ([] ++ ruleBad :: [ruleOk])).vars "height" = some (.integer 7) := by
  have h := c7_eval_error_isolated st0 rect0 [] [ruleOk] ruleBad "width"
    (.value (.variable ⟨"nope", p0⟩) p0) (.unknownVariable "nope" p0)
    (by decide) (by decide) (by decide) rfl rfl
  refine ⟨h.1, ?_, ?_⟩
  · rw [h.2.1]
    decide
  · rw [h.2.2 "height" (by decide) (by decide) (by decide)]
    decide

end Fungui
